import Mathlib

/-!
Verification of the golexer lexical scanner (package `golexer`).

The Go source is embedded shallowly:

* the UTF-8 input string is modelled as the list of its decoded code
  points (`List Char`); Go's byte offsets `position`/`readPosition` become
  code-point indices, which is faithful because the source only ever uses
  them at rune boundaries (slicing `l.input[start:l.position]` becomes
  drop/take on the code-point list);
* the package-level lookup tables (`keywords`, `operators`,
  `singleCharTokens`), which `Config.MergeWithDefaults` mutates in place,
  are made explicit as a `Globals` value threaded through the scanner,
  mirroring Go's read-the-package-variable-at-call-time semantics;
* `unicode.IsLetter` / `unicode.IsDigit` are modelled on the ASCII range
  (where they agree with `Char.isAlpha` / `Char.isDigit`); every concrete
  input below is ASCII, and no theorem depends on how non-ASCII letters
  are classified beyond the fact that the NUL sentinel is not a letter;
* unbounded `for` loops become fuel-indexed recursions returning
  `Option`; the exported entry points run them with fuel `fuelFor l`
  (one more than the termination measure `mu`), which is proved
  sufficient, so the `getD` fallback is never taken.
-/

namespace Golexer

/-- Character constants, named to keep the embedding readable: the Go code
uses rune literals for them. -/
def nulChar : Char := Char.ofNat 0

/-- Backslash rune constant. -/
def backslashChar : Char := Char.ofNat 92

/-- Single-quote rune constant. -/
def squoteChar : Char := Char.ofNat 39

/-- Double-quote rune constant. -/
def dquoteChar : Char := Char.ofNat 34

/-- Backtick rune constant. -/
def backtickChar : Char := Char.ofNat 96

/-- Go `type TokenType string` (token.go). -/
abbrev TokenType := String

/-- Go `type Token struct` (token.go): type, literal, 1-indexed line and
column.  The `Type` field is renamed `type_` because `Type` is reserved in
Lean. -/
structure Token where
  type_ : TokenType
  Literal : String
  Line : Nat
  Column : Nat
deriving DecidableEq, Repr

/-- Go `type LexError struct` (error file): message plus position. -/
structure LexError where
  Message : String
  Line : Nat
  Column : Nat
deriving DecidableEq, Repr

/-- Token type constants from token.go. -/
def ILLEGAL : TokenType := "ILLEGAL"

/-- End-of-stream token type. -/
def EOFTT : TokenType := "EOF"

/-- Assignment operator token type. -/
def ASSIGN : TokenType := "="

/-- Plus token type. -/
def PLUS : TokenType := "+"

/-- Minus token type. -/
def MINUS : TokenType := "-"

/-- Multiplication token type. -/
def MULTIPLY : TokenType := "*"

/-- Division token type. -/
def DIVIDE : TokenType := "/"

/-- Number token type. -/
def NUMBER : TokenType := "NUMBER"

/-- Modulus token type. -/
def MODULUS : TokenType := "%"

/-- Logical-not token type. -/
def BANG : TokenType := "!"

/-- Logical-and token type. -/
def AND : TokenType := "&&"

/-- Logical-or token type. -/
def OR : TokenType := "||"

/-- Not-equal token type. -/
def NOT_EQL : TokenType := "!="

/-- Less-than token type. -/
def LESS_THAN : TokenType := "<"

/-- Less-or-equal token type. -/
def LESS_THAN_EQL : TokenType := "<="

/-- Greater-than token type. -/
def GREATER_THAN : TokenType := ">"

/-- Greater-or-equal token type. -/
def GREATER_THAN_EQL : TokenType := ">="

/-- Equality token type. -/
def EQL : TokenType := "=="

/-- Plus-assign token type. -/
def PLUS_ASSIGN : TokenType := "+="

/-- Minus-assign token type. -/
def MINUS_ASSIGN : TokenType := "-="

/-- Multiply-assign token type. -/
def MULTIPLY_ASSIGN : TokenType := "*="

/-- Divide-assign token type. -/
def DIVIDE_ASSIGN : TokenType := "/="

/-- Modulus-assign token type. -/
def MODULUS_ASSIGN : TokenType := "%="

/-- Comma token type. -/
def COMMA : TokenType := ","

/-- Semicolon token type. -/
def SEMICOLON : TokenType := ";"

/-- Colon token type. -/
def COLON : TokenType := ":"

/-- Dot token type. -/
def DOT : TokenType := "."

/-- Backtick (raw) string token type. -/
def BACKTICK_STRING : TokenType := "BACKTICK_STRING"

/-- Left-paren token type. -/
def LPAREN : TokenType := "("

/-- Right-paren token type. -/
def RPAREN : TokenType := ")"

/-- Left-brace token type. -/
def LBRACE : TokenType := "\x7b"

/-- Right-brace token type. -/
def RBRACE : TokenType := "\x7d"

/-- Left-bracket token type. -/
def LBRACKET : TokenType := "["

/-- Right-bracket token type. -/
def RBRACKET : TokenType := "]"

/-- Identifier token type. -/
def IDENT : TokenType := "IDENT"

/-- Keyword token types. -/
def LET : TokenType := "LET"

/-- Keyword `const` token type. -/
def CONST : TokenType := "CONST"

/-- Keyword `fn` token type. -/
def FN : TokenType := "FN"

/-- Keyword `if` token type. -/
def IF : TokenType := "IF"

/-- Keyword `else` token type. -/
def ELSE : TokenType := "ELSE"

/-- Keyword `while` token type. -/
def WHILE : TokenType := "WHILE"

/-- Keyword `for` token type. -/
def FOR : TokenType := "FOR"

/-- Keyword `return` token type. -/
def RETURN : TokenType := "RETURN"

/-- Keyword `break` token type. -/
def BREAK : TokenType := "BREAK"

/-- Keyword `continue` token type. -/
def CONTINUE : TokenType := "CONTINUE"

/-- Keyword `true` token type. -/
def TRUE : TokenType := "TRUE"

/-- Keyword `false` token type. -/
def FALSE : TokenType := "FALSE"

/-- Keyword `null` token type. -/
def NULL : TokenType := "NULL"

/-- String token type. -/
def STRING : TokenType := "STRING"

/-- Type-keyword token types. -/
def TYPE_INT : TokenType := "TYPE_INT"

/-- Keyword `float` token type. -/
def TYPE_FLOAT : TokenType := "TYPE_FLOAT"

/-- Keyword `string` token type. -/
def TYPE_STRING : TokenType := "TYPE_STRING"

/-- Keyword `bool` token type. -/
def TYPE_BOOL : TokenType := "TYPE_BOOL"

/-- Keyword `char` token type. -/
def TYPE_CHAR : TokenType := "TYPE_CHAR"

/-- Character-literal token type. -/
def CHAR : TokenType := "CHAR"

/-- Go `type Operator struct` (config.go): a single/compound operator pair. -/
structure Operator where
  Single : String
  SingleType : TokenType
  Compound : String
  CompoundType : TokenType
deriving DecidableEq, Repr

/-- Default contents of the package-level `keywords` map (token.go).  Map
lookup is order-insensitive, so an association list is a faithful model. -/
def keywordsDefault : List (String × TokenType) :=
  [("let", LET), ("const", CONST), ("fn", FN), ("if", IF), ("else", ELSE),
   ("while", WHILE), ("for", FOR), ("return", RETURN), ("break", BREAK),
   ("continue", CONTINUE), ("true", TRUE), ("false", FALSE), ("null", NULL),
   ("int", TYPE_INT), ("float", TYPE_FLOAT), ("string", TYPE_STRING),
   ("bool", TYPE_BOOL), ("char", TYPE_CHAR)]

/-- Default contents of the package-level `operators` slice (config.go),
in slice order; `tryOperator` iterates it in this order. -/
def operatorsDefault : List Operator :=
  [⟨"=", ASSIGN, "==", EQL⟩,
   ⟨"+", PLUS, "+=", PLUS_ASSIGN⟩,
   ⟨"-", MINUS, "-=", MINUS_ASSIGN⟩,
   ⟨"*", MULTIPLY, "*=", MULTIPLY_ASSIGN⟩,
   ⟨"/", DIVIDE, "/=", DIVIDE_ASSIGN⟩,
   ⟨"%", MODULUS, "%=", MODULUS_ASSIGN⟩,
   ⟨"!", BANG, "!=", NOT_EQL⟩,
   ⟨"<", LESS_THAN, "<=", LESS_THAN_EQL⟩,
   ⟨">", GREATER_THAN, ">=", GREATER_THAN_EQL⟩,
   ⟨"&", "", "&&", AND⟩,
   ⟨"|", "", "||", OR⟩]

/-- Default contents of the package-level `singleCharTokens` map
(config.go). -/
def singleCharTokensDefault : List (Char × TokenType) :=
  [('(', LPAREN), (')', RPAREN), (Char.ofNat 123, LBRACE),
   (Char.ofNat 125, RBRACE), ('[', LBRACKET), (']', RBRACKET),
   (',', COMMA), (';', SEMICOLON), (':', COLON), ('.', DOT)]

/-- The three package-level mutable lookup tables of the Go package,
made explicit as a value.  Go reads these package variables at each use
inside the scanner, so every scanner operation below takes a `Globals`
argument; `MergeWithDefaults` returns the mutated tables. -/
structure Globals where
  keywords : List (String × TokenType)
  operators : List Operator
  singleCharTokens : List (Char × TokenType)
deriving DecidableEq, Repr

/-- The tables as initialised by the package-level declarations. -/
def defaultGlobals : Globals :=
  ⟨keywordsDefault, operatorsDefault, singleCharTokensDefault⟩

/-- Go `LookupIdent` (token.go): keyword-map hit or the generic
identifier type. -/
def LookupIdent (kw : List (String × TokenType)) (ident : String) : TokenType :=
  match kw.lookup ident with
  | some tok => tok
  | none => IDENT

/-- Map-assignment semantics `m[k] = v` for the association-list model:
overwrite an existing binding, otherwise add one. -/
def insertAssoc {α β : Type} [DecidableEq α] (m : List (α × β)) (k : α) (v : β) :
    List (α × β) :=
  if (m.lookup k).isSome then
    m.map (fun p => if p.1 = k then (k, v) else p)
  else
    m ++ [(k, v)]

/-- Go `type Config struct` (config.go).  The JSON maps are modelled as
association lists; folding them in list order models one iteration order
of Go's map ranges (insertion into a map is order-independent for the
distinct keys a JSON object provides). -/
structure Config where
  AdditionalKeywords : List (String × String)
  AdditionalOperators : List (String × String)
  AdditionalPunctuation : List (String × String)
deriving DecidableEq, Repr

/-- Go `Config.MergeWithDefaults` (config.go): mutates the package-level
tables, here: returns the mutated `Globals`.  `rune(char[0])` on a Go
string of byte-length 1 is that single ASCII character, modelled by
requiring a one-code-point ASCII string. -/
def MergeWithDefaults (c : Config) (g : Globals) : Globals :=
  { keywords :=
      c.AdditionalKeywords.foldl (fun m kv => insertAssoc m kv.1 kv.2) g.keywords,
    operators :=
      g.operators ++ c.AdditionalOperators.map (fun kv => ⟨kv.1, kv.2, "", ""⟩),
    singleCharTokens :=
      c.AdditionalPunctuation.foldl
        (fun m kv =>
          match kv.1.data with
          | [ch] => if ch.toNat < 128 then insertAssoc m ch kv.2 else m
          | _ => m)
        g.singleCharTokens }

/-- Go `type Lexer struct` (config.go).  `input` is the decoded
code-point sequence; `position`/`readPosition` are code-point indices. -/
structure Lexer where
  input : List Char
  position : Nat
  readPosition : Nat
  ch : Char
  line : Nat
  column : Nat
  errors : List LexError
deriving DecidableEq, Repr

/-- The struct literal inside Go `NewLexer`, before the initial
`readChar` call: line 1, column 0, empty error list, zero-valued cursor
fields. -/
def mkLexer (input : List Char) : Lexer :=
  ⟨input, 0, 0, nulChar, 1, 0, []⟩

/-- Go `addError` (config.go): append a `LexError` carrying the current
line/column. -/
def addErrorL (l : Lexer) (message : String) : Lexer :=
  { l with errors := l.errors ++ [⟨message, l.line, l.column⟩] }

/-- Go `readChar` (config.go).  Note the faithful quirk: when
`readPosition` has reached the end of the input only `ch` is reset to the
NUL sentinel - `position` stays on the last code point - and the
line/column update still runs, so `column` keeps growing at end of
input. -/
def readChar (l : Lexer) : Lexer :=
  let l1 :=
    if l.input.length ≤ l.readPosition then
      { l with ch := nulChar }
    else
      { l with ch := l.input.getD l.readPosition nulChar,
               position := l.readPosition,
               readPosition := l.readPosition + 1 }
  if l1.ch = '\n' then
    { l1 with line := l1.line + 1, column := 1 }
  else
    { l1 with column := l1.column + 1 }

/-- Go `NewLexer` (config.go): build the struct, then `readChar` once. -/
def NewLexer (input : String) : Lexer :=
  readChar (mkLexer input.data)

/-- Go `NewLexerWithConfig` (config.go): a failed config load only warns
(the lexer is built against the unchanged tables); a successful load
merges into the package-level tables.  The file read/JSON parse is out of
scope, so the load result arrives as an `Option Config`.  The returned
`Globals` is the package state after construction. -/
def NewLexerWithConfig (input : String) (loaded : Option Config) (g : Globals) :
    Lexer × Globals :=
  match loaded with
  | none => (readChar (mkLexer input.data), g)
  | some c => (readChar (mkLexer input.data), MergeWithDefaults c g)

/-- Go `peekChar` (config.go). -/
def peekChar (l : Lexer) : Char :=
  if l.input.length ≤ l.readPosition then nulChar
  else l.input.getD l.readPosition nulChar

/-- Go `isLetter`: `unicode.IsLetter(ch) || ch == '_'`, modelled on the
ASCII range. -/
def isLetter (ch : Char) : Bool :=
  ch.isAlpha || ch = '_'

/-- Go `isDigit`: `unicode.IsDigit`, modelled on the ASCII range. -/
def isDigit (ch : Char) : Bool :=
  ch.isDigit

/-- Go `isHexDigit` (config.go). -/
def isHexDigit (ch : Char) : Bool :=
  isDigit ch || ('a' ≤ ch && ch ≤ 'f') || ('A' ≤ ch && ch ≤ 'F')

/-- Go `isBinaryDigit` (config.go). -/
def isBinaryDigit (ch : Char) : Bool :=
  ch = '0' || ch = '1'

/-- Go `isOctalDigit` (config.go). -/
def isOctalDigit (ch : Char) : Bool :=
  '0' ≤ ch && ch ≤ '7'

/-- Whitespace test from Go `skipWhitespace`'s loop condition. -/
def isWs (ch : Char) : Bool :=
  ch = ' ' || ch = '\t' || ch = '\n' || ch = '\r'

/-- Termination measure: twice the unread suffix plus one if the current
code point is not the NUL sentinel.  Any `readChar` from a state whose
current code point is live strictly decreases it. -/
def mu (l : Lexer) : Nat :=
  2 * (l.input.length - l.readPosition) + (if l.ch = nulChar then 0 else 1)

/-- Fuel budget proved sufficient for one `NextToken` request. -/
def fuelFor (l : Lexer) : Nat :=
  mu l + 1

/-- Fuel-indexed form of the Go pattern `for p(l.ch) { l.readChar() }`. -/
def advanceWhileF (p : Char → Bool) : Nat → Lexer → Option Lexer
  | 0, _ => none
  | fuel + 1, l => if p l.ch then advanceWhileF p fuel (readChar l) else some l

/-- Go `skipWhitespace` (config.go). -/
def skipWhitespaceF (fuel : Nat) (l : Lexer) : Option Lexer :=
  advanceWhileF isWs fuel l

/-- Go slice expression `l.input[start:stop]` on code-point indices. -/
def sliceStr (s : List Char) (start stop : Nat) : String :=
  String.mk ((s.drop start).take (stop - start))

/-- Go `readIdentifier` (config.go). -/
def readIdentifierF (fuel : Nat) (l : Lexer) : Option (String × Lexer) :=
  if ¬ isLetter l.ch then
    some ("", addErrorL l "identifier must start with a letter or underscore")
  else
    match advanceWhileF (fun c => isLetter c || isDigit c) fuel l with
    | none => none
    | some l2 => some (sliceStr l.input l.position l2.position, l2)

/-- Trailing-letter recovery shared by the number scanners: report
`msg`, then skip letters and digits to avoid cascading errors. -/
def numberTail (msg : String) (fuel : Nat) (l : Lexer) : Option Lexer :=
  advanceWhileF (fun c => isLetter c || isDigit c) fuel (addErrorL l msg)

/-- Go `readHexNumber` (config.go). -/
def readHexNumberF (fuel : Nat) (l : Lexer) : Option (String × Lexer) :=
  let start := l.position
  let l1 := readChar (readChar l)
  if ¬ isHexDigit l1.ch then
    let l2 := addErrorL l1
      "invalid hexadecimal number: must contain at least one hex digit after 0x"
    some (sliceStr l.input start l2.position, l2)
  else
    match advanceWhileF isHexDigit fuel l1 with
    | none => none
    | some l2 =>
      let tail : Option Lexer :=
        if isLetter l2.ch ∧ l2.ch ≠ nulChar then
          numberTail "invalid hexadecimal number: contains non-hex characters" fuel l2
        else some l2
      match tail with
      | none => none
      | some l3 => some (sliceStr l.input start l3.position, l3)

/-- Go `readBinaryNumber` (config.go). -/
def readBinaryNumberF (fuel : Nat) (l : Lexer) : Option (String × Lexer) :=
  let start := l.position
  let l1 := readChar (readChar l)
  if ¬ isBinaryDigit l1.ch then
    let l2 := addErrorL l1
      "invalid binary number: must contain at least one binary digit after 0b"
    some (sliceStr l.input start l2.position, l2)
  else
    match advanceWhileF isBinaryDigit fuel l1 with
    | none => none
    | some l2 =>
      let tail : Option Lexer :=
        if (isDigit l2.ch ∧ ¬ isBinaryDigit l2.ch) ∨ isLetter l2.ch then
          numberTail "invalid binary number: contains non-binary characters" fuel l2
        else some l2
      match tail with
      | none => none
      | some l3 => some (sliceStr l.input start l3.position, l3)

/-- Go `readOctalNumber` (config.go). -/
def readOctalNumberF (fuel : Nat) (l : Lexer) : Option (String × Lexer) :=
  let start := l.position
  let l1 := readChar (readChar l)
  if ¬ isOctalDigit l1.ch then
    let l2 := addErrorL l1
      "invalid octal number: must contain at least one octal digit after 0o"
    some (sliceStr l.input start l2.position, l2)
  else
    match advanceWhileF isOctalDigit fuel l1 with
    | none => none
    | some l2 =>
      let tail : Option Lexer :=
        if (isDigit l2.ch ∧ ¬ isOctalDigit l2.ch) ∨ isLetter l2.ch then
          numberTail "invalid octal number: contains non-octal characters" fuel l2
        else some l2
      match tail with
      | none => none
      | some l3 => some (sliceStr l.input start l3.position, l3)

/-- Go `readTraditionalOctal` (config.go). -/
def readTraditionalOctalF (fuel : Nat) (l : Lexer) : Option (String × Lexer) :=
  let start := l.position
  match advanceWhileF isOctalDigit fuel l with
  | none => none
  | some l2 =>
    let tail : Option Lexer :=
      if (isDigit l2.ch ∧ ¬ isOctalDigit l2.ch) ∨ isLetter l2.ch then
        numberTail "invalid octal number: contains non-octal characters" fuel l2
      else some l2
    match tail with
    | none => none
    | some l3 => some (sliceStr l.input start l3.position, l3)

/-- Exponent part of Go `readNumber`: consume `e`/`E`, an optional sign,
then the mandatory digits. -/
def readExponentF (fuel : Nat) (l2 : Lexer) : Option Lexer :=
  if l2.ch = 'e' ∨ l2.ch = 'E' then
    let la := readChar l2
    let lb := if la.ch = '+' ∨ la.ch = '-' then readChar la else la
    if ¬ isDigit lb.ch then
      some (addErrorL lb "invalid scientific notation: exponent must contain digits")
    else
      advanceWhileF isDigit fuel lb
  else some l2

/-- Go `readNumber` (config.go): prefix dispatch, decimal body, optional
fraction, optional exponent, trailing-letter recovery. -/
def readNumberF (fuel : Nat) (l : Lexer) : Option (String × Lexer) :=
  let start := l.position
  if l.ch = '0' ∧ (peekChar l = 'x' ∨ peekChar l = 'X') then
    readHexNumberF fuel l
  else if l.ch = '0' ∧ (peekChar l = 'b' ∨ peekChar l = 'B') then
    readBinaryNumberF fuel l
  else if l.ch = '0' ∧ (peekChar l = 'o' ∨ peekChar l = 'O') then
    readOctalNumberF fuel l
  else if l.ch = '0' ∧ isOctalDigit (peekChar l) then
    readTraditionalOctalF fuel l
  else
    match advanceWhileF isDigit fuel l with
    | none => none
    | some l1 =>
      let frac : Option Lexer :=
        if l1.ch = '.' ∧ isDigit (peekChar l1) then
          advanceWhileF isDigit fuel (readChar l1)
        else some l1
      match frac with
      | none => none
      | some l2 =>
        match readExponentF fuel l2 with
        | none => none
        | some l3 =>
          let tail : Option Lexer :=
            if isLetter l3.ch ∧ l3.ch ≠ nulChar then
              numberTail "invalid number: numbers cannot be followed by letters" fuel l3
            else some l3
          match tail with
          | none => none
          | some l4 => some (sliceStr l.input start l4.position, l4)

/-- Hex-digit value conversion written in Go `readEscapeSequence`'s
chained-range style. -/
def hexDigitVal (c : Char) : Nat :=
  if '0' ≤ c ∧ c ≤ '9' then c.toNat - '0'.toNat
  else if 'a' ≤ c ∧ c ≤ 'f' then c.toNat - 'a'.toNat + 10
  else if 'A' ≤ c ∧ c ≤ 'F' then c.toNat - 'A'.toNat + 10
  else 0

/-- The `case 'x'` arm of Go `readEscapeSequence`, taking the state whose
current code point is the first character after `\x` (Go's `l` after the
`l.readChar()` in the arm; the locals `first`/`second` are inlined). -/
def readEscapeHex (l2 : Lexer) : Char × Lexer :=
  if ¬ isHexDigit l2.ch then
    (nulChar, addErrorL l2 "invalid hex escape sequence: expected hex digit after \\x")
  else if ¬ isHexDigit (readChar l2).ch then
    (nulChar,
      addErrorL (readChar l2) "invalid hex escape sequence: expected two hex digits after \\x")
  else
    (Char.ofNat (hexDigitVal l2.ch * 16 + hexDigitVal (readChar l2).ch), readChar l2)

/-- The switch of Go `readEscapeSequence`, on the state whose current
code point is the character following the backslash. -/
def readEscapeBody (l1 : Lexer) : Char × Lexer :=
  if l1.ch = nulChar then
    (nulChar, addErrorL l1 "unterminated escape sequence")
  else if l1.ch = 'a' then (Char.ofNat 7, l1)
  else if l1.ch = 'b' then (Char.ofNat 8, l1)
  else if l1.ch = 'f' then (Char.ofNat 12, l1)
  else if l1.ch = 'n' then ('\n', l1)
  else if l1.ch = 'r' then (Char.ofNat 13, l1)
  else if l1.ch = 't' then ('\t', l1)
  else if l1.ch = 'v' then (Char.ofNat 11, l1)
  else if l1.ch = backslashChar then (backslashChar, l1)
  else if l1.ch = squoteChar then (squoteChar, l1)
  else if l1.ch = dquoteChar then (dquoteChar, l1)
  else if l1.ch = '0' then (nulChar, l1)
  else if l1.ch = 'x' then readEscapeHex (readChar l1)
  else
    (l1.ch, addErrorL l1
      ("unknown escape sequence '" ++ backslashChar.toString ++ l1.ch.toString ++ "'"))

/-- Go `readEscapeSequence` (config.go): consume the backslash, then
dispatch on the escape character.  Returns the decoded code point (NUL
doubles as the error sentinel) and the state after the last consumed
code point. -/
def readEscapeSequence (l : Lexer) : Char × Lexer :=
  readEscapeBody (readChar l)

/-- Closing-quote check of Go `readCharLiteral`: advance off the literal
body, then require the single quote (Go's `l3` local is inlined). -/
def charClose (result : String) (l2 : Lexer) : String × Lexer :=
  if (readChar l2).ch ≠ squoteChar then
    (result, addErrorL (readChar l2) "character literal must be closed with single quote")
  else
    (result, readChar (readChar l2))

/-- Go `readCharLiteral` (config.go).  No loop, hence no fuel; the Go
local `l1` (state after the opening quote) is written `readChar l`. -/
def readCharLiteral (l : Lexer) : String × Lexer :=
  if (readChar l).ch = nulChar then
    ("", addErrorL (readChar l) "unterminated character literal")
  else if (readChar l).ch = '\n' then
    ("", addErrorL (readChar l) "character literal cannot contain newline")
  else if (readChar l).ch = backslashChar then
    charClose
      (if (readEscapeSequence (readChar l)).1 ≠ nulChar then
        (readEscapeSequence (readChar l)).1.toString
      else "")
      (readEscapeSequence (readChar l)).2
  else
    charClose (readChar l).ch.toString (readChar l)

/-- Loop of Go `readString` (config.go), accumulating the builder. -/
def readStringF : Nat → Lexer → String → Option (String × Lexer)
  | 0, _, _ => none
  | fuel + 1, l, acc =>
    let l1 := readChar l
    if l1.ch = nulChar then
      some (acc, addErrorL l1 "unterminated string literal")
    else if l1.ch = dquoteChar then
      some (acc, l1)
    else if l1.ch = backslashChar then
      let es := readEscapeSequence l1
      readStringF fuel es.2 (if es.1 ≠ nulChar then acc.push es.1 else acc)
    else
      readStringF fuel l1 (acc.push l1.ch)

/-- Loop of Go `readBacktickString` (config.go): raw, no escapes. -/
def readBacktickStringF : Nat → Lexer → String → Option (String × Lexer)
  | 0, _, _ => none
  | fuel + 1, l, acc =>
    let l1 := readChar l
    if l1.ch = nulChar then
      some (acc, addErrorL l1 "unterminated backtick string literal")
    else if l1.ch = backtickChar then
      some (acc, l1)
    else
      readBacktickStringF fuel l1 (acc.push l1.ch)

/-- Go `skipLineComment` (config.go). -/
def skipLineCommentF (fuel : Nat) (l : Lexer) : Option Lexer :=
  advanceWhileF (fun c => ¬ (c = '\n') && ¬ (c = nulChar)) fuel l

/-- Loop of Go `skipBlockComment` (config.go), after the initial
`readChar`. -/
def skipBlockLoopF : Nat → Lexer → Option Lexer
  | 0, _ => none
  | fuel + 1, l =>
    if l.ch = nulChar then
      some (addErrorL l "unterminated block comment")
    else if l.ch = '*' ∧ peekChar l = '/' then
      some (readChar (readChar l))
    else
      skipBlockLoopF fuel (readChar l)

/-- Go `skipBlockComment` (config.go). -/
def skipBlockCommentF (fuel : Nat) (l : Lexer) : Option Lexer :=
  skipBlockLoopF fuel (readChar l)

/-- Go string indexing `s[i]` for the ASCII operator spellings, as a
code point. -/
def strByteD (s : String) (i : Nat) : Char :=
  s.data.getD i nulChar

/-- Uppercase hex digit for the `%04X` format. -/
def hexDigitUpper (n : Nat) : Char :=
  if n < 10 then Char.ofNat ('0'.toNat + n) else Char.ofNat ('A'.toNat + (n - 10))

/-- Go format `%04X`: at-least-four-digit uppercase hexadecimal. -/
def hex4 (n : Nat) : String :=
  let ds := (Nat.toDigits 16 n).map Char.toUpper
  String.mk (List.replicate (4 - ds.length) '0' ++ ds)

/-- Loop body of Go `tryOperator` (config.go): scan the operator slice in
order; on a hit return the token and (for compound forms) the advanced
state.  `none` models the `found = false` return. -/
def tryOperatorAux (l : Lexer) (line column : Nat) :
    List Operator → Option (Token × Lexer)
  | [] => none
  | op :: rest =>
    if l.ch = strByteD op.Single 0 then
      if (l.ch = '&' ∨ l.ch = '|') ∧ op.Compound ≠ "" then
        if peekChar l = strByteD op.Compound 1 then
          let ch := l.ch
          let l1 := readChar l
          some (⟨op.CompoundType, String.mk [ch, l1.ch], line, column⟩, l1)
        else
          some (⟨ILLEGAL, l.ch.toString, line, column⟩,
            addErrorL l ("unexpected character '" ++ l.ch.toString ++
              "' - did you mean '" ++ op.Compound ++ "'?"))
      else if op.Compound ≠ "" ∧ 1 < op.Compound.length ∧
          peekChar l = strByteD op.Compound 1 then
        let ch := l.ch
        let l1 := readChar l
        some (⟨op.CompoundType, String.mk [ch, l1.ch], line, column⟩, l1)
      else if op.SingleType ≠ "" then
        some (⟨op.SingleType, op.Single, line, column⟩, l)
      else
        tryOperatorAux l line column rest
    else
      tryOperatorAux l line column rest

/-- Go `NextToken` (config.go), fuel-indexed.  The recursive re-entry
after a comment consumes one unit of the outer fuel; everything else
mirrors the source's dispatch order: whitespace, comments, identifiers,
numbers, operators, then the quote/EOF/punctuation switch. -/
def nextTokenF (g : Globals) : Nat → Lexer → Option (Token × Lexer)
  | 0, _ => none
  | fuel + 1, l =>
    match skipWhitespaceF (fuel + 1) l with
    | none => none
    | some l1 =>
      let line := l1.line
      let column := l1.column
      if l1.ch = '/' ∧ peekChar l1 = '/' then
        match skipLineCommentF (fuel + 1) l1 with
        | none => none
        | some l2 => nextTokenF g fuel l2
      else if l1.ch = '/' ∧ peekChar l1 = '*' then
        match skipBlockCommentF (fuel + 1) l1 with
        | none => none
        | some l2 => nextTokenF g fuel l2
      else if isLetter l1.ch then
        match readIdentifierF (fuel + 1) l1 with
        | none => none
        | some (literal, l2) =>
          if literal = "" then
            some (⟨ILLEGAL, l2.ch.toString, line, column⟩, l2)
          else
            some (⟨LookupIdent g.keywords literal, literal, line, column⟩, l2)
      else if isDigit l1.ch then
        match readNumberF (fuel + 1) l1 with
        | none => none
        | some (literal, l2) =>
          let tokType := if l1.errors.length < l2.errors.length then ILLEGAL else NUMBER
          some (⟨tokType, literal, line, column⟩, l2)
      else
        match tryOperatorAux l1 line column g.operators with
        | some (tok, l2) => some (tok, readChar l2)
        | none =>
          if l1.ch = squoteChar then
            let r := readCharLiteral l1
            some (⟨CHAR, r.1, line, column⟩, r.2)
          else if l1.ch = dquoteChar then
            match readStringF (fuel + 1) l1 "" with
            | none => none
            | some (str, l2) => some (⟨STRING, str, line, column⟩, readChar l2)
          else if l1.ch = backtickChar then
            match readBacktickStringF (fuel + 1) l1 "" with
            | none => none
            | some (str, l2) =>
              some (⟨BACKTICK_STRING, str, line, column⟩, readChar l2)
          else if l1.ch = nulChar then
            some (⟨EOFTT, "", line, column⟩, readChar l1)
          else
            match g.singleCharTokens.lookup l1.ch with
            | some tt => some (⟨tt, l1.ch.toString, line, column⟩, readChar l1)
            | none =>
              let l2 := addErrorL l1
                ("unexpected character '" ++ l1.ch.toString ++ "' (Unicode: U+" ++
                  hex4 l1.ch.toNat ++ ")")
              some (⟨ILLEGAL, l1.ch.toString, line, column⟩, readChar l2)

/-- Go `NextToken` run with the proved-sufficient fuel budget.  The
fallback of the `getD` is never reached (`nextTokenF_isSome`). -/
def NextToken (g : Globals) (l : Lexer) : Token × Lexer :=
  (nextTokenF g (fuelFor l) l).getD (⟨EOFTT, "", l.line, l.column⟩, l)

/-- Go `TokenizeAll` loop (config.go): drain `NextToken` until the
end-of-stream type, return the tokens (without the EOF marker) and the
error sequence of the final state. -/
def tokenizeAllF (g : Globals) : Nat → Lexer → Option (List Token × List LexError)
  | 0, _ => none
  | fuel + 1, l =>
    let r := NextToken g l
    if r.1.type_ = EOFTT then
      some ([], r.2.errors)
    else
      match tokenizeAllF g fuel r.2 with
      | none => none
      | some (ts, es) => some (r.1 :: ts, es)

/-- Go `TokenizeAll` with the proved-sufficient fuel budget. -/
def TokenizeAll (g : Globals) (l : Lexer) : List Token × List LexError :=
  (tokenizeAllF g (fuelFor l) l).getD ([], [])

/-- Go `GetErrors`. -/
def GetErrors (l : Lexer) : List LexError :=
  l.errors

/-- Go `HasErrors`. -/
def HasErrors (l : Lexer) : Bool :=
  0 < l.errors.length

/-- Iterated `readChar`: the only primitive that moves the cursor. -/
def readCharIter : Nat → Lexer → Lexer
  | 0, l => l
  | n + 1, l => readCharIter n (readChar l)

/-- A state with its error log erased; all cursor movement is a function
of this part alone. -/
def posCore (l : Lexer) : Lexer :=
  { l with errors := [] }

/-- Reachability of one scanner state from another: the cursor part is
some number of `readChar` steps ahead and the error log has only been
appended to. -/
def Evolves (l l2 : Lexer) : Prop :=
  (∃ k, posCore l2 = posCore (readCharIter k l)) ∧ ∃ es, l2.errors = l.errors ++ es

/-- Lexicographic not-earlier order on (line, column) pairs. -/
abbrev PosLe (a b : Nat × Nat) : Prop :=
  a.1 < b.1 ∨ (a.1 = b.1 ∧ a.2 ≤ b.2)

/-- Position order on tokens: the second token does not start earlier. -/
abbrev TokLe (t u : Token) : Prop :=
  PosLe (t.Line, t.Column) (u.Line, u.Column)

/-- Number of line feeds among the first `i` code points: the current
line of the code point at index `i` is this plus one. -/
def lineIdx (s : List Char) (i : Nat) : Nat :=
  (s.take i).count '\n'

/-- Length of the line-feed-free suffix of the first `i` code points: the
true 1-indexed column of the code point at index `i` is this plus one. -/
def colIdx (s : List Char) (i : Nat) : Nat :=
  ((s.take i).reverse.takeWhile (fun c => c ≠ '\n')).length

theorem readChar_input (l : Lexer) : (readChar l).input = l.input := by
  cases l with
  | mk input position readPosition ch line column errors =>
    simp only [readChar]
    split_ifs <;> rfl

theorem readChar_errors (l : Lexer) : (readChar l).errors = l.errors := by
  cases l with
  | mk input position readPosition ch line column errors =>
    simp only [readChar]
    split_ifs <;> rfl

theorem addErrorL_core (l : Lexer) (m : String) : posCore (addErrorL l m) = posCore l := by
  cases l with
  | mk input position readPosition ch line column errors => rfl

theorem mu_nonincreasing (l : Lexer) : mu (readChar l) ≤ mu l := by
  cases l with
  | mk input position readPosition ch line column errors =>
    simp only [readChar, mu]
    split_ifs <;> simp_all <;> omega

theorem mu_decreases (l : Lexer) (h : l.ch ≠ nulChar) : mu (readChar l) < mu l := by
  cases l with
  | mk input position readPosition ch line column errors =>
    simp only [readChar, mu]
    simp only [Lexer.ch] at h
    split_ifs <;> simp_all <;> omega

theorem mu_lt_or_nul (l : Lexer) : mu (readChar l) < mu l ∨ (readChar l).ch = nulChar := by
  cases l with
  | mk input position readPosition ch line column errors =>
    simp only [readChar, mu]
    split_ifs <;> simp_all <;> omega

theorem readChar_posLe (l : Lexer) :
    PosLe (l.line, l.column) ((readChar l).line, (readChar l).column) := by
  cases l with
  | mk input position readPosition ch line column errors =>
    simp only [readChar]
    split_ifs <;> simp [PosLe]

theorem posLe_refl (a : Nat × Nat) : PosLe a a := by
  simp [PosLe]

theorem posLe_trans {a b c : Nat × Nat} (h1 : PosLe a b) (h2 : PosLe b c) : PosLe a c := by
  rcases h1 with h1 | ⟨h1, h1c⟩ <;> rcases h2 with h2 | ⟨h2, h2c⟩ <;>
    simp [PosLe] <;> omega

theorem readChar_congr {a b : Lexer} (h : posCore a = posCore b) :
    posCore (readChar a) = posCore (readChar b) := by
  cases a with
  | mk ia pa ra ca la cola ea =>
    cases b with
    | mk ib pb rb cb lb colb eb =>
      simp only [posCore, Lexer.mk.injEq, and_true, true_and] at h
      obtain ⟨h1, h2, h3, h4, h5, h6⟩ := h
      subst h1; subst h2; subst h3; subst h4; subst h5; subst h6
      simp only [readChar, posCore]
      split_ifs <;> rfl

theorem readCharIter_congr {a b : Lexer} (k : Nat) (h : posCore a = posCore b) :
    posCore (readCharIter k a) = posCore (readCharIter k b) := by
  induction k generalizing a b with
  | zero => exact h
  | succ n ih => exact ih (readChar_congr h)

theorem readCharIter_add (m k : Nat) (l : Lexer) :
    readCharIter (m + k) l = readCharIter k (readCharIter m l) := by
  induction m generalizing l with
  | zero => simp [readCharIter]
  | succ n ih =>
    have : n + 1 + k = (n + k) + 1 := by omega
    rw [this]
    simp only [readCharIter]
    exact ih (readChar l)

theorem evolves_refl (l : Lexer) : Evolves l l :=
  ⟨⟨0, rfl⟩, ⟨[], by simp⟩⟩

theorem evolves_readChar (l : Lexer) : Evolves l (readChar l) :=
  ⟨⟨1, rfl⟩, ⟨[], by simp [readChar_errors]⟩⟩

theorem evolves_addError (l : Lexer) (m : String) : Evolves l (addErrorL l m) :=
  ⟨⟨0, addErrorL_core l m⟩, ⟨[⟨m, l.line, l.column⟩], rfl⟩⟩

theorem evolves_trans {a b c : Lexer} (h1 : Evolves a b) (h2 : Evolves b c) : Evolves a c := by
  obtain ⟨⟨k1, hk1⟩, ⟨e1, he1⟩⟩ := h1
  obtain ⟨⟨k2, hk2⟩, ⟨e2, he2⟩⟩ := h2
  refine ⟨⟨k1 + k2, ?_⟩, ⟨e1 ++ e2, ?_⟩⟩
  · rw [readCharIter_add]
    exact hk2.trans (readCharIter_congr k2 hk1)
  · rw [he2, he1, List.append_assoc]

theorem posCore_input {a b : Lexer} (h : posCore a = posCore b) : a.input = b.input := by
  cases a; cases b
  simp only [posCore, Lexer.mk.injEq] at h
  exact h.1

theorem posCore_mu {a b : Lexer} (h : posCore a = posCore b) : mu a = mu b := by
  cases a; cases b
  simp only [posCore, Lexer.mk.injEq] at h
  obtain ⟨h1, h2, h3, h4, h5, h6, h7⟩ := h
  simp [mu, h1, h3, h4]

theorem posCore_pos {a b : Lexer} (h : posCore a = posCore b) :
    a.line = b.line ∧ a.column = b.column := by
  cases a; cases b
  simp only [posCore, Lexer.mk.injEq] at h
  exact ⟨h.2.2.2.2.1, h.2.2.2.2.2.1⟩

theorem readCharIter_input (k : Nat) (l : Lexer) : (readCharIter k l).input = l.input := by
  induction k generalizing l with
  | zero => rfl
  | succ n ih => simp only [readCharIter]; rw [ih, readChar_input]

theorem readCharIter_mu (k : Nat) (l : Lexer) : mu (readCharIter k l) ≤ mu l := by
  induction k generalizing l with
  | zero => exact le_refl _
  | succ n ih =>
    simp only [readCharIter]
    exact le_trans (ih (readChar l)) (mu_nonincreasing l)

theorem readCharIter_posLe (k : Nat) (l : Lexer) :
    PosLe (l.line, l.column) ((readCharIter k l).line, (readCharIter k l).column) := by
  induction k generalizing l with
  | zero => exact posLe_refl _
  | succ n ih =>
    simp only [readCharIter]
    exact posLe_trans (readChar_posLe l) (ih (readChar l))

theorem evolves_input {a b : Lexer} (h : Evolves a b) : b.input = a.input := by
  obtain ⟨⟨k, hk⟩, _⟩ := h
  rw [posCore_input hk, readCharIter_input]

theorem evolves_mu {a b : Lexer} (h : Evolves a b) : mu b ≤ mu a := by
  obtain ⟨⟨k, hk⟩, _⟩ := h
  rw [posCore_mu hk]
  exact readCharIter_mu k a

theorem evolves_posLe {a b : Lexer} (h : Evolves a b) :
    PosLe (a.line, a.column) (b.line, b.column) := by
  obtain ⟨⟨k, hk⟩, _⟩ := h
  obtain ⟨h1, h2⟩ := posCore_pos hk
  rw [h1, h2]
  exact readCharIter_posLe k a

theorem evolves_errors {a b : Lexer} (h : Evolves a b) : ∃ es, b.errors = a.errors ++ es :=
  h.2

theorem advanceWhileF_evolves {p : Char → Bool} {f : Nat} {l l2 : Lexer}
    (h : advanceWhileF p f l = some l2) : Evolves l l2 := by
  induction f generalizing l with
  | zero => simp [advanceWhileF] at h
  | succ n ih =>
    simp only [advanceWhileF] at h
    split_ifs at h with hc
    · exact evolves_trans (evolves_readChar l) (ih h)
    · cases h
      exact evolves_refl _

theorem advanceWhileF_isSome {p : Char → Bool} (hp : p nulChar = false) {f : Nat}
    {l : Lexer} (h : mu l < f) : (advanceWhileF p f l).isSome := by
  induction f generalizing l with
  | zero => omega
  | succ n ih =>
    simp only [advanceWhileF]
    split_ifs with hc
    · have hne : l.ch ≠ nulChar := by
        intro he
        rw [he, hp] at hc
        exact Bool.noConfusion hc
      have := mu_decreases l hne
      exact ih (by omega)
    · rfl

theorem advanceWhileF_mu_lt {p : Char → Bool} {f : Nat} {l l2 : Lexer}
    (hc : p l.ch = true) (hne : l.ch ≠ nulChar)
    (h : advanceWhileF p f l = some l2) : mu l2 < mu l := by
  cases f with
  | zero => simp [advanceWhileF] at h
  | succ n =>
    simp only [advanceWhileF, hc, if_pos] at h
    have h1 := evolves_mu (advanceWhileF_evolves h)
    have h2 := mu_decreases l hne
    omega

theorem numberTail_evolves {msg : String} {f : Nat} {l l2 : Lexer}
    (h : numberTail msg f l = some l2) : Evolves l l2 :=
  evolves_trans (evolves_addError l msg) (advanceWhileF_evolves h)

theorem numberTail_isSome (msg : String) {f : Nat} {l : Lexer} (h : mu l < f) :
    (numberTail msg f l).isSome := by
  have hm : mu (addErrorL l msg) = mu l := posCore_mu (addErrorL_core l msg)
  simp only [numberTail]
  exact advanceWhileF_isSome (by decide) (by omega)

theorem readIdentifierF_evolves {f : Nat} {l l2 : Lexer} {s : String}
    (h : readIdentifierF f l = some (s, l2)) : Evolves l l2 := by
  simp only [readIdentifierF] at h
  by_cases hb : isLetter l.ch = true
  · rw [if_neg (by simp [hb])] at h
    rcases heq : advanceWhileF (fun c => isLetter c || isDigit c) f l with _ | l3
    · rw [heq] at h
      exact Option.noConfusion h
    · rw [heq] at h
      simp only [Option.some.injEq, Prod.mk.injEq] at h
      rw [← h.2]
      exact advanceWhileF_evolves heq
  · rw [if_pos (by simp [hb])] at h
    simp only [Option.some.injEq, Prod.mk.injEq] at h
    rw [← h.2]
    exact evolves_addError _ _

theorem readIdentifierF_isSome {f : Nat} {l : Lexer} (h : mu l < f) :
    (readIdentifierF f l).isSome := by
  simp only [readIdentifierF]
  by_cases hb : isLetter l.ch = true
  · rw [if_neg (by simp [hb])]
    have h2 := advanceWhileF_isSome (p := fun c => isLetter c || isDigit c) (by decide) h
    rcases heq : advanceWhileF (fun c => isLetter c || isDigit c) f l with _ | l3
    · rw [heq] at h2
      exact Bool.noConfusion h2
    · rfl
  · rw [if_pos (by simp [hb])]
    rfl

theorem readIdentifierF_mu_lt {f : Nat} {l l2 : Lexer} {s : String}
    (hc : isLetter l.ch = true) (h : readIdentifierF f l = some (s, l2)) :
    mu l2 < mu l := by
  have hne : l.ch ≠ nulChar := by
    intro he
    rw [he] at hc
    exact Bool.noConfusion hc
  simp only [readIdentifierF] at h
  rw [if_neg (by simp [hc])] at h
  rcases heq : advanceWhileF (fun c => isLetter c || isDigit c) f l with _ | l3
  · rw [heq] at h
    exact Option.noConfusion h
  · rw [heq] at h
    simp only [Option.some.injEq, Prod.mk.injEq] at h
    rw [← h.2]
    exact advanceWhileF_mu_lt (by simp [hc]) hne heq

theorem readHexNumberF_evolves {f : Nat} {l l2 : Lexer} {s : String}
    (h : readHexNumberF f l = some (s, l2)) : Evolves l l2 := by
  have h0 : Evolves l (readChar (readChar l)) :=
    evolves_trans (evolves_readChar l) (evolves_readChar _)
  simp only [readHexNumberF] at h
  split_ifs at h with hc
  · rcases heq : advanceWhileF isHexDigit f (readChar (readChar l)) with _ | la
    · rw [heq] at h
      exact Option.noConfusion h
    · rw [heq] at h
      simp only [] at h
      have h1 : Evolves l la := evolves_trans h0 (advanceWhileF_evolves heq)
      split_ifs at h with ht
      · rcases hnt : numberTail "invalid hexadecimal number: contains non-hex characters" f la
            with _ | lb
        · rw [hnt] at h
          exact Option.noConfusion h
        · rw [hnt] at h
          simp only [Option.some.injEq, Prod.mk.injEq] at h
          rw [← h.2]
          exact evolves_trans h1 (numberTail_evolves hnt)
      · simp only [Option.some.injEq, Prod.mk.injEq] at h
        rw [← h.2]
        exact h1
  · simp only [Option.some.injEq, Prod.mk.injEq] at h
    rw [← h.2]
    exact evolves_trans h0 (evolves_addError _ _)

theorem readHexNumberF_isSome {f : Nat} {l : Lexer} (h : mu l < f) :
    (readHexNumberF f l).isSome := by
  have hm1 : mu (readChar (readChar l)) ≤ mu l :=
    le_trans (mu_nonincreasing _) (mu_nonincreasing _)
  simp only [readHexNumberF]
  split_ifs with hc
  · have h2 := advanceWhileF_isSome (p := isHexDigit) (by decide)
      (lt_of_le_of_lt hm1 h)
    rcases heq : advanceWhileF isHexDigit f (readChar (readChar l)) with _ | la
    · rw [heq] at h2
      exact Bool.noConfusion h2
    · simp only []
      have hla : mu la ≤ mu l := le_trans (evolves_mu (advanceWhileF_evolves heq)) hm1
      split_ifs with ht
      · have h3 := numberTail_isSome
          "invalid hexadecimal number: contains non-hex characters" (lt_of_le_of_lt hla h)
        rcases hnt : numberTail "invalid hexadecimal number: contains non-hex characters" f la
            with _ | lb
        · rw [hnt] at h3
          exact Bool.noConfusion h3
        · rfl
      · rfl
  · rfl

theorem readHexNumberF_mu_lt {f : Nat} {l l2 : Lexer} {s : String}
    (hne : l.ch ≠ nulChar) (h : readHexNumberF f l = some (s, l2)) :
    mu l2 < mu l := by
  have h0 : mu (readChar (readChar l)) < mu l :=
    lt_of_le_of_lt (mu_nonincreasing _) (mu_decreases l hne)
  simp only [readHexNumberF] at h
  split_ifs at h with hc
  · rcases heq : advanceWhileF isHexDigit f (readChar (readChar l)) with _ | la
    · rw [heq] at h
      exact Option.noConfusion h
    · rw [heq] at h
      simp only [] at h
      have h1 : mu la < mu l := lt_of_le_of_lt (evolves_mu (advanceWhileF_evolves heq)) h0
      split_ifs at h with ht
      · rcases hnt : numberTail "invalid hexadecimal number: contains non-hex characters" f la
            with _ | lb
        · rw [hnt] at h
          exact Option.noConfusion h
        · rw [hnt] at h
          simp only [Option.some.injEq, Prod.mk.injEq] at h
          rw [← h.2]
          exact lt_of_le_of_lt (evolves_mu (numberTail_evolves hnt)) h1
      · simp only [Option.some.injEq, Prod.mk.injEq] at h
        rw [← h.2]
        exact h1
  · simp only [Option.some.injEq, Prod.mk.injEq] at h
    rw [← h.2]
    rw [posCore_mu (addErrorL_core _ _)]
    exact h0

theorem readBinaryNumberF_evolves {f : Nat} {l l2 : Lexer} {s : String}
    (h : readBinaryNumberF f l = some (s, l2)) : Evolves l l2 := by
  have h0 : Evolves l (readChar (readChar l)) :=
    evolves_trans (evolves_readChar l) (evolves_readChar _)
  simp only [readBinaryNumberF] at h
  split_ifs at h with hc
  · rcases heq : advanceWhileF isBinaryDigit f (readChar (readChar l)) with _ | la
    · rw [heq] at h
      exact Option.noConfusion h
    · rw [heq] at h
      simp only [] at h
      have h1 : Evolves l la := evolves_trans h0 (advanceWhileF_evolves heq)
      split_ifs at h with ht
      · rcases hnt : numberTail "invalid binary number: contains non-binary characters" f la
            with _ | lb
        · rw [hnt] at h
          exact Option.noConfusion h
        · rw [hnt] at h
          simp only [Option.some.injEq, Prod.mk.injEq] at h
          rw [← h.2]
          exact evolves_trans h1 (numberTail_evolves hnt)
      · simp only [Option.some.injEq, Prod.mk.injEq] at h
        rw [← h.2]
        exact h1
  · simp only [Option.some.injEq, Prod.mk.injEq] at h
    rw [← h.2]
    exact evolves_trans h0 (evolves_addError _ _)

theorem readBinaryNumberF_isSome {f : Nat} {l : Lexer} (h : mu l < f) :
    (readBinaryNumberF f l).isSome := by
  have hm1 : mu (readChar (readChar l)) ≤ mu l :=
    le_trans (mu_nonincreasing _) (mu_nonincreasing _)
  simp only [readBinaryNumberF]
  split_ifs with hc
  · have h2 := advanceWhileF_isSome (p := isBinaryDigit) (by decide)
      (lt_of_le_of_lt hm1 h)
    rcases heq : advanceWhileF isBinaryDigit f (readChar (readChar l)) with _ | la
    · rw [heq] at h2
      exact Bool.noConfusion h2
    · simp only []
      have hla : mu la ≤ mu l := le_trans (evolves_mu (advanceWhileF_evolves heq)) hm1
      split_ifs with ht
      · have h3 := numberTail_isSome
          "invalid binary number: contains non-binary characters" (lt_of_le_of_lt hla h)
        rcases hnt : numberTail "invalid binary number: contains non-binary characters" f la
            with _ | lb
        · rw [hnt] at h3
          exact Bool.noConfusion h3
        · rfl
      · rfl
  · rfl

theorem readBinaryNumberF_mu_lt {f : Nat} {l l2 : Lexer} {s : String}
    (hne : l.ch ≠ nulChar) (h : readBinaryNumberF f l = some (s, l2)) :
    mu l2 < mu l := by
  have h0 : mu (readChar (readChar l)) < mu l :=
    lt_of_le_of_lt (mu_nonincreasing _) (mu_decreases l hne)
  simp only [readBinaryNumberF] at h
  split_ifs at h with hc
  · rcases heq : advanceWhileF isBinaryDigit f (readChar (readChar l)) with _ | la
    · rw [heq] at h
      exact Option.noConfusion h
    · rw [heq] at h
      simp only [] at h
      have h1 : mu la < mu l := lt_of_le_of_lt (evolves_mu (advanceWhileF_evolves heq)) h0
      split_ifs at h with ht
      · rcases hnt : numberTail "invalid binary number: contains non-binary characters" f la
            with _ | lb
        · rw [hnt] at h
          exact Option.noConfusion h
        · rw [hnt] at h
          simp only [Option.some.injEq, Prod.mk.injEq] at h
          rw [← h.2]
          exact lt_of_le_of_lt (evolves_mu (numberTail_evolves hnt)) h1
      · simp only [Option.some.injEq, Prod.mk.injEq] at h
        rw [← h.2]
        exact h1
  · simp only [Option.some.injEq, Prod.mk.injEq] at h
    rw [← h.2]
    rw [posCore_mu (addErrorL_core _ _)]
    exact h0

theorem readOctalNumberF_evolves {f : Nat} {l l2 : Lexer} {s : String}
    (h : readOctalNumberF f l = some (s, l2)) : Evolves l l2 := by
  have h0 : Evolves l (readChar (readChar l)) :=
    evolves_trans (evolves_readChar l) (evolves_readChar _)
  simp only [readOctalNumberF] at h
  split_ifs at h with hc
  · rcases heq : advanceWhileF isOctalDigit f (readChar (readChar l)) with _ | la
    · rw [heq] at h
      exact Option.noConfusion h
    · rw [heq] at h
      simp only [] at h
      have h1 : Evolves l la := evolves_trans h0 (advanceWhileF_evolves heq)
      split_ifs at h with ht
      · rcases hnt : numberTail "invalid octal number: contains non-octal characters" f la
            with _ | lb
        · rw [hnt] at h
          exact Option.noConfusion h
        · rw [hnt] at h
          simp only [Option.some.injEq, Prod.mk.injEq] at h
          rw [← h.2]
          exact evolves_trans h1 (numberTail_evolves hnt)
      · simp only [Option.some.injEq, Prod.mk.injEq] at h
        rw [← h.2]
        exact h1
  · simp only [Option.some.injEq, Prod.mk.injEq] at h
    rw [← h.2]
    exact evolves_trans h0 (evolves_addError _ _)

theorem readOctalNumberF_isSome {f : Nat} {l : Lexer} (h : mu l < f) :
    (readOctalNumberF f l).isSome := by
  have hm1 : mu (readChar (readChar l)) ≤ mu l :=
    le_trans (mu_nonincreasing _) (mu_nonincreasing _)
  simp only [readOctalNumberF]
  split_ifs with hc
  · have h2 := advanceWhileF_isSome (p := isOctalDigit) (by decide)
      (lt_of_le_of_lt hm1 h)
    rcases heq : advanceWhileF isOctalDigit f (readChar (readChar l)) with _ | la
    · rw [heq] at h2
      exact Bool.noConfusion h2
    · simp only []
      have hla : mu la ≤ mu l := le_trans (evolves_mu (advanceWhileF_evolves heq)) hm1
      split_ifs with ht
      · have h3 := numberTail_isSome
          "invalid octal number: contains non-octal characters" (lt_of_le_of_lt hla h)
        rcases hnt : numberTail "invalid octal number: contains non-octal characters" f la
            with _ | lb
        · rw [hnt] at h3
          exact Bool.noConfusion h3
        · rfl
      · rfl
  · rfl

theorem readOctalNumberF_mu_lt {f : Nat} {l l2 : Lexer} {s : String}
    (hne : l.ch ≠ nulChar) (h : readOctalNumberF f l = some (s, l2)) :
    mu l2 < mu l := by
  have h0 : mu (readChar (readChar l)) < mu l :=
    lt_of_le_of_lt (mu_nonincreasing _) (mu_decreases l hne)
  simp only [readOctalNumberF] at h
  split_ifs at h with hc
  · rcases heq : advanceWhileF isOctalDigit f (readChar (readChar l)) with _ | la
    · rw [heq] at h
      exact Option.noConfusion h
    · rw [heq] at h
      simp only [] at h
      have h1 : mu la < mu l := lt_of_le_of_lt (evolves_mu (advanceWhileF_evolves heq)) h0
      split_ifs at h with ht
      · rcases hnt : numberTail "invalid octal number: contains non-octal characters" f la
            with _ | lb
        · rw [hnt] at h
          exact Option.noConfusion h
        · rw [hnt] at h
          simp only [Option.some.injEq, Prod.mk.injEq] at h
          rw [← h.2]
          exact lt_of_le_of_lt (evolves_mu (numberTail_evolves hnt)) h1
      · simp only [Option.some.injEq, Prod.mk.injEq] at h
        rw [← h.2]
        exact h1
  · simp only [Option.some.injEq, Prod.mk.injEq] at h
    rw [← h.2]
    rw [posCore_mu (addErrorL_core _ _)]
    exact h0

theorem readTraditionalOctalF_evolves {f : Nat} {l l2 : Lexer} {s : String}
    (h : readTraditionalOctalF f l = some (s, l2)) : Evolves l l2 := by
  simp only [readTraditionalOctalF] at h
  rcases heq : advanceWhileF isOctalDigit f l with _ | la
  · rw [heq] at h
    exact Option.noConfusion h
  · rw [heq] at h
    simp only [] at h
    have h1 : Evolves l la := advanceWhileF_evolves heq
    split_ifs at h with ht
    · rcases hnt : numberTail "invalid octal number: contains non-octal characters" f la
          with _ | lb
      · rw [hnt] at h
        exact Option.noConfusion h
      · rw [hnt] at h
        simp only [Option.some.injEq, Prod.mk.injEq] at h
        rw [← h.2]
        exact evolves_trans h1 (numberTail_evolves hnt)
    · simp only [Option.some.injEq, Prod.mk.injEq] at h
      rw [← h.2]
      exact h1

theorem readTraditionalOctalF_isSome {f : Nat} {l : Lexer} (h : mu l < f) :
    (readTraditionalOctalF f l).isSome := by
  simp only [readTraditionalOctalF]
  have h2 := advanceWhileF_isSome (p := isOctalDigit) (by decide) h
  rcases heq : advanceWhileF isOctalDigit f l with _ | la
  · rw [heq] at h2
    exact Bool.noConfusion h2
  · simp only []
    have hla : mu la ≤ mu l := evolves_mu (advanceWhileF_evolves heq)
    split_ifs with ht
    · have h3 := numberTail_isSome
        "invalid octal number: contains non-octal characters" (lt_of_le_of_lt hla h)
      rcases hnt : numberTail "invalid octal number: contains non-octal characters" f la
          with _ | lb
      · rw [hnt] at h3
        exact Bool.noConfusion h3
      · rfl
    · rfl

theorem readTraditionalOctalF_mu_lt {f : Nat} {l l2 : Lexer} {s : String}
    (hd : isOctalDigit l.ch = true) (h : readTraditionalOctalF f l = some (s, l2)) :
    mu l2 < mu l := by
  have hne : l.ch ≠ nulChar := by
    intro he
    rw [he] at hd
    exact Bool.noConfusion hd
  simp only [readTraditionalOctalF] at h
  rcases heq : advanceWhileF isOctalDigit f l with _ | la
  · rw [heq] at h
    exact Option.noConfusion h
  · rw [heq] at h
    simp only [] at h
    have h1 : mu la < mu l := advanceWhileF_mu_lt hd hne heq
    split_ifs at h with ht
    · rcases hnt : numberTail "invalid octal number: contains non-octal characters" f la
          with _ | lb
      · rw [hnt] at h
        exact Option.noConfusion h
      · rw [hnt] at h
        simp only [Option.some.injEq, Prod.mk.injEq] at h
        rw [← h.2]
        exact lt_of_le_of_lt (evolves_mu (numberTail_evolves hnt)) h1
    · simp only [Option.some.injEq, Prod.mk.injEq] at h
      rw [← h.2]
      exact h1

theorem readExponentF_evolves {f : Nat} {l l2 : Lexer}
    (h : readExponentF f l = some l2) : Evolves l l2 := by
  have e1 : Evolves l (readChar l) := evolves_readChar l
  have e2 : Evolves l (readChar (readChar l)) :=
    evolves_trans e1 (evolves_readChar _)
  simp only [readExponentF] at h
  split_ifs at h with c1 c2 c3 c4
  · exact evolves_trans e2 (advanceWhileF_evolves h)
  · simp only [Option.some.injEq] at h
    rw [← h]
    exact evolves_trans e2 (evolves_addError _ _)
  · exact evolves_trans e1 (advanceWhileF_evolves h)
  · simp only [Option.some.injEq] at h
    rw [← h]
    exact evolves_trans e1 (evolves_addError _ _)
  · simp only [Option.some.injEq] at h
    rw [← h]
    exact evolves_refl _

theorem readExponentF_isSome {f : Nat} {l : Lexer} (h : mu l < f) :
    (readExponentF f l).isSome := by
  have m1 : mu (readChar l) ≤ mu l := mu_nonincreasing l
  have m2 : mu (readChar (readChar l)) ≤ mu l :=
    le_trans (mu_nonincreasing _) m1
  simp only [readExponentF]
  split_ifs with c1 c2 c3 c4
  · exact advanceWhileF_isSome (p := isDigit) (by decide) (by omega)
  · rfl
  · exact advanceWhileF_isSome (p := isDigit) (by decide) (by omega)
  · rfl
  · rfl

theorem readNumberF_evolves {f : Nat} {l l2 : Lexer} {s : String}
    (h : readNumberF f l = some (s, l2)) : Evolves l l2 := by
  simp only [readNumberF] at h
  split_ifs at h with c1 c2 c3 c4
  · exact readHexNumberF_evolves h
  · exact readBinaryNumberF_evolves h
  · exact readOctalNumberF_evolves h
  · exact readTraditionalOctalF_evolves h
  · rcases heq : advanceWhileF isDigit f l with _ | la
    · rw [heq] at h
      exact Option.noConfusion h
    · rw [heq] at h
      simp only [] at h
      have h1 : Evolves l la := advanceWhileF_evolves heq
      split_ifs at h with c5
      · rcases hfr : advanceWhileF isDigit f (readChar la) with _ | lb
        · rw [hfr] at h
          exact Option.noConfusion h
        · rw [hfr] at h
          simp only [] at h
          have h2 : Evolves l lb :=
            evolves_trans h1 (evolves_trans (evolves_readChar la) (advanceWhileF_evolves hfr))
          rcases hex : readExponentF f lb with _ | lc
          · rw [hex] at h
            exact Option.noConfusion h
          · rw [hex] at h
            simp only [] at h
            have h3 : Evolves l lc := evolves_trans h2 (readExponentF_evolves hex)
            split_ifs at h with c6
            · rcases hnt : numberTail "invalid number: numbers cannot be followed by letters" f lc
                  with _ | ld
              · rw [hnt] at h
                exact Option.noConfusion h
              · rw [hnt] at h
                simp only [Option.some.injEq, Prod.mk.injEq] at h
                rw [← h.2]
                exact evolves_trans h3 (numberTail_evolves hnt)
            · simp only [Option.some.injEq, Prod.mk.injEq] at h
              rw [← h.2]
              exact h3
      · simp only [] at h
        rcases hex : readExponentF f la with _ | lc
        · rw [hex] at h
          exact Option.noConfusion h
        · rw [hex] at h
          simp only [] at h
          have h3 : Evolves l lc := evolves_trans h1 (readExponentF_evolves hex)
          split_ifs at h with c6
          · rcases hnt : numberTail "invalid number: numbers cannot be followed by letters" f lc
                with _ | ld
            · rw [hnt] at h
              exact Option.noConfusion h
            · rw [hnt] at h
              simp only [Option.some.injEq, Prod.mk.injEq] at h
              rw [← h.2]
              exact evolves_trans h3 (numberTail_evolves hnt)
          · simp only [Option.some.injEq, Prod.mk.injEq] at h
            rw [← h.2]
            exact h3

theorem readNumberF_isSome {f : Nat} {l : Lexer} (h : mu l < f) :
    (readNumberF f l).isSome := by
  simp only [readNumberF]
  split_ifs with c1 c2 c3 c4
  · exact readHexNumberF_isSome h
  · exact readBinaryNumberF_isSome h
  · exact readOctalNumberF_isSome h
  · exact readTraditionalOctalF_isSome h
  · have h2 := advanceWhileF_isSome (p := isDigit) (by decide) h
    rcases heq : advanceWhileF isDigit f l with _ | la
    · rw [heq] at h2
      exact Bool.noConfusion h2
    · simp only []
      have hla : mu la ≤ mu l := evolves_mu (advanceWhileF_evolves heq)
      split_ifs with c5
      · have hrb : mu (readChar la) ≤ mu l := le_trans (mu_nonincreasing la) hla
        have h3 := advanceWhileF_isSome (p := isDigit) (by decide)
          (lt_of_le_of_lt hrb h)
        rcases hfr : advanceWhileF isDigit f (readChar la) with _ | lb
        · rw [hfr] at h3
          exact Bool.noConfusion h3
        · simp only []
          have hlb : mu lb ≤ mu l := le_trans (evolves_mu (advanceWhileF_evolves hfr)) hrb
          have h4 := readExponentF_isSome (l := lb) (f := f) (lt_of_le_of_lt hlb h)
          rcases hex : readExponentF f lb with _ | lc
          · rw [hex] at h4
            exact Bool.noConfusion h4
          · simp only []
            have hlc : mu lc ≤ mu l := le_trans (evolves_mu (readExponentF_evolves hex)) hlb
            split_ifs with c6
            · have h5 := numberTail_isSome
                "invalid number: numbers cannot be followed by letters" (lt_of_le_of_lt hlc h)
              rcases hnt : numberTail "invalid number: numbers cannot be followed by letters" f lc
                  with _ | ld
              · rw [hnt] at h5
                exact Bool.noConfusion h5
              · rfl
            · rfl
      · simp only []
        have h4 := readExponentF_isSome (l := la) (f := f) (lt_of_le_of_lt hla h)
        rcases hex : readExponentF f la with _ | lc
        · rw [hex] at h4
          exact Bool.noConfusion h4
        · simp only []
          have hlc : mu lc ≤ mu l := le_trans (evolves_mu (readExponentF_evolves hex)) hla
          split_ifs with c6
          · have h5 := numberTail_isSome
              "invalid number: numbers cannot be followed by letters" (lt_of_le_of_lt hlc h)
            rcases hnt : numberTail "invalid number: numbers cannot be followed by letters" f lc
                with _ | ld
            · rw [hnt] at h5
              exact Bool.noConfusion h5
            · rfl
          · rfl

theorem readNumberF_mu_lt {f : Nat} {l l2 : Lexer} {s : String}
    (hd : isDigit l.ch = true) (h : readNumberF f l = some (s, l2)) :
    mu l2 < mu l := by
  have hne : l.ch ≠ nulChar := by
    intro he
    rw [he] at hd
    exact Bool.noConfusion hd
  simp only [readNumberF] at h
  split_ifs at h with c1 c2 c3 c4
  · exact readHexNumberF_mu_lt hne h
  · exact readBinaryNumberF_mu_lt hne h
  · exact readOctalNumberF_mu_lt hne h
  · have hoct : isOctalDigit l.ch = true := by
      rw [c4.1]
      decide
    exact readTraditionalOctalF_mu_lt hoct h
  · rcases heq : advanceWhileF isDigit f l with _ | la
    · rw [heq] at h
      exact Option.noConfusion h
    · rw [heq] at h
      simp only [] at h
      have h1 : mu la < mu l := advanceWhileF_mu_lt hd hne heq
      split_ifs at h with c5
      · rcases hfr : advanceWhileF isDigit f (readChar la) with _ | lb
        · rw [hfr] at h
          exact Option.noConfusion h
        · rw [hfr] at h
          simp only [] at h
          have h2 : mu lb < mu l :=
            lt_of_le_of_lt
              (le_trans (evolves_mu (advanceWhileF_evolves hfr)) (mu_nonincreasing la)) h1
          rcases hex : readExponentF f lb with _ | lc
          · rw [hex] at h
            exact Option.noConfusion h
          · rw [hex] at h
            simp only [] at h
            have h3 : mu lc < mu l :=
              lt_of_le_of_lt (evolves_mu (readExponentF_evolves hex)) h2
            split_ifs at h with c6
            · rcases hnt : numberTail "invalid number: numbers cannot be followed by letters" f lc
                  with _ | ld
              · rw [hnt] at h
                exact Option.noConfusion h
              · rw [hnt] at h
                simp only [Option.some.injEq, Prod.mk.injEq] at h
                rw [← h.2]
                exact lt_of_le_of_lt (evolves_mu (numberTail_evolves hnt)) h3
            · simp only [Option.some.injEq, Prod.mk.injEq] at h
              rw [← h.2]
              exact h3
      · simp only [] at h
        rcases hex : readExponentF f la with _ | lc
        · rw [hex] at h
          exact Option.noConfusion h
        · rw [hex] at h
          simp only [] at h
          have h3 : mu lc < mu l :=
            lt_of_le_of_lt (evolves_mu (readExponentF_evolves hex)) h1
          split_ifs at h with c6
          · rcases hnt : numberTail "invalid number: numbers cannot be followed by letters" f lc
                with _ | ld
            · rw [hnt] at h
              exact Option.noConfusion h
            · rw [hnt] at h
              simp only [Option.some.injEq, Prod.mk.injEq] at h
              rw [← h.2]
              exact lt_of_le_of_lt (evolves_mu (numberTail_evolves hnt)) h3
          · simp only [Option.some.injEq, Prod.mk.injEq] at h
            rw [← h.2]
            exact h3

theorem readEscapeHex_evolves (l2 : Lexer) : Evolves l2 (readEscapeHex l2).2 := by
  simp only [readEscapeHex]
  split_ifs with c1 c2
  · exact evolves_readChar _
  · exact evolves_trans (evolves_readChar _) (evolves_addError _ _)
  · exact evolves_addError _ _

theorem readEscapeBody_evolves (l1 : Lexer) : Evolves l1 (readEscapeBody l1).2 := by
  have e0 : Evolves l1 l1 := evolves_refl _
  have ea : ∀ m : String, Evolves l1 (addErrorL l1 m) := fun m => evolves_addError _ _
  have eh : Evolves l1 (readEscapeHex (readChar l1)).2 :=
    evolves_trans (evolves_readChar _) (readEscapeHex_evolves _)
  rw [readEscapeBody]
  by_cases h1 : l1.ch = nulChar
  · rw [if_pos h1]
    exact ea _
  rw [if_neg h1]
  by_cases h2 : l1.ch = 'a'
  · rw [if_pos h2]
    exact e0
  rw [if_neg h2]
  by_cases h3 : l1.ch = 'b'
  · rw [if_pos h3]
    exact e0
  rw [if_neg h3]
  by_cases h4 : l1.ch = 'f'
  · rw [if_pos h4]
    exact e0
  rw [if_neg h4]
  by_cases h5 : l1.ch = 'n'
  · rw [if_pos h5]
    exact e0
  rw [if_neg h5]
  by_cases h6 : l1.ch = 'r'
  · rw [if_pos h6]
    exact e0
  rw [if_neg h6]
  by_cases h7 : l1.ch = 't'
  · rw [if_pos h7]
    exact e0
  rw [if_neg h7]
  by_cases h8 : l1.ch = 'v'
  · rw [if_pos h8]
    exact e0
  rw [if_neg h8]
  by_cases h9 : l1.ch = backslashChar
  · rw [if_pos h9]
    exact e0
  rw [if_neg h9]
  by_cases h10 : l1.ch = squoteChar
  · rw [if_pos h10]
    exact e0
  rw [if_neg h10]
  by_cases h11 : l1.ch = dquoteChar
  · rw [if_pos h11]
    exact e0
  rw [if_neg h11]
  by_cases h12 : l1.ch = '0'
  · rw [if_pos h12]
    exact e0
  rw [if_neg h12]
  by_cases h13 : l1.ch = 'x'
  · rw [if_pos h13]
    exact eh
  rw [if_neg h13]
  exact ea _

theorem readEscapeSequence_evolves (l : Lexer) :
    Evolves l (readEscapeSequence l).2 :=
  evolves_trans (evolves_readChar l) (readEscapeBody_evolves (readChar l))

theorem charClose_evolves (r : String) (l2 : Lexer) :
    Evolves l2 (charClose r l2).2 := by
  simp only [charClose]
  split_ifs with c1
  · exact evolves_trans (evolves_readChar _) (evolves_addError _ _)
  · exact evolves_trans (evolves_readChar _) (evolves_readChar _)

theorem readCharLiteral_evolves (l : Lexer) :
    Evolves (readChar l) (readCharLiteral l).2 := by
  simp only [readCharLiteral]
  split_ifs with c1 c2 c3 c4
  · exact evolves_addError _ _
  · exact evolves_addError _ _
  · exact evolves_trans (readEscapeSequence_evolves (readChar l)) (charClose_evolves _ _)
  · exact evolves_trans (readEscapeSequence_evolves (readChar l)) (charClose_evolves _ _)
  · exact charClose_evolves (readChar l).ch.toString (readChar l)

theorem readStringF_evolves {f : Nat} {l l2 : Lexer} {acc s : String}
    (h : readStringF f l acc = some (s, l2)) : Evolves l l2 := by
  induction f generalizing l acc with
  | zero => simp [readStringF] at h
  | succ n ih =>
    simp only [readStringF] at h
    split_ifs at h with c1 c2 c3 c4
    · simp only [Option.some.injEq, Prod.mk.injEq] at h
      rw [← h.2]
      exact evolves_trans (evolves_readChar l) (evolves_addError _ _)
    · simp only [Option.some.injEq, Prod.mk.injEq] at h
      rw [← h.2]
      exact evolves_readChar l
    · exact evolves_trans
        (evolves_trans (evolves_readChar l) (readEscapeSequence_evolves (readChar l)))
        (ih h)
    · exact evolves_trans
        (evolves_trans (evolves_readChar l) (readEscapeSequence_evolves (readChar l)))
        (ih h)
    · exact evolves_trans (evolves_readChar l) (ih h)

theorem readStringF_mu {f : Nat} {l l2 : Lexer} {acc s : String}
    (h : readStringF f l acc = some (s, l2)) : mu l2 ≤ mu (readChar l) := by
  induction f generalizing l acc with
  | zero => simp [readStringF] at h
  | succ n ih =>
    have hes : mu (readEscapeSequence (readChar l)).2 ≤ mu (readChar l) :=
      evolves_mu (readEscapeSequence_evolves (readChar l))
    have hes2 : mu (readChar (readEscapeSequence (readChar l)).2) ≤ mu (readChar l) :=
      le_trans (mu_nonincreasing _) hes
    simp only [readStringF] at h
    split_ifs at h with c1 c2 c3 c4
    · simp only [Option.some.injEq, Prod.mk.injEq] at h
      rw [← h.2]
      exact le_of_eq (posCore_mu (addErrorL_core _ _))
    · simp only [Option.some.injEq, Prod.mk.injEq] at h
      rw [← h.2]
    · exact le_trans (ih h) hes2
    · exact le_trans (ih h) hes2
    · exact le_trans (ih h) (mu_nonincreasing _)

theorem readStringF_isSome {f : Nat} {l : Lexer} {acc : String} (h : mu l < f) :
    (readStringF f l acc).isSome := by
  induction f generalizing l acc with
  | zero => omega
  | succ n ih =>
    have hes : mu (readEscapeSequence (readChar l)).2 ≤ mu (readChar l) :=
      evolves_mu (readEscapeSequence_evolves (readChar l))
    simp only [readStringF]
    split_ifs with c1 c2 c3 c4
    · rfl
    · rfl
    · rcases mu_lt_or_nul l with hlt | hnl
      · apply ih
        omega
      · rw [hnl] at c3
        simp [nulChar, backslashChar] at c3
    · rcases mu_lt_or_nul l with hlt | hnl
      · apply ih
        omega
      · rw [hnl] at c3
        simp [nulChar, backslashChar] at c3
    · rcases mu_lt_or_nul l with hlt | hnl
      · apply ih
        omega
      · exact absurd hnl c1

theorem readBacktickStringF_evolves {f : Nat} {l l2 : Lexer} {acc s : String}
    (h : readBacktickStringF f l acc = some (s, l2)) : Evolves l l2 := by
  induction f generalizing l acc with
  | zero => simp [readBacktickStringF] at h
  | succ n ih =>
    simp only [readBacktickStringF] at h
    split_ifs at h with c1 c2
    · simp only [Option.some.injEq, Prod.mk.injEq] at h
      rw [← h.2]
      exact evolves_trans (evolves_readChar l) (evolves_addError _ _)
    · simp only [Option.some.injEq, Prod.mk.injEq] at h
      rw [← h.2]
      exact evolves_readChar l
    · exact evolves_trans (evolves_readChar l) (ih h)

theorem readBacktickStringF_mu {f : Nat} {l l2 : Lexer} {acc s : String}
    (h : readBacktickStringF f l acc = some (s, l2)) : mu l2 ≤ mu (readChar l) := by
  induction f generalizing l acc with
  | zero => simp [readBacktickStringF] at h
  | succ n ih =>
    simp only [readBacktickStringF] at h
    split_ifs at h with c1 c2
    · simp only [Option.some.injEq, Prod.mk.injEq] at h
      rw [← h.2]
      exact le_of_eq (posCore_mu (addErrorL_core _ _))
    · simp only [Option.some.injEq, Prod.mk.injEq] at h
      rw [← h.2]
    · exact le_trans (ih h) (mu_nonincreasing _)

theorem readBacktickStringF_isSome {f : Nat} {l : Lexer} {acc : String} (h : mu l < f) :
    (readBacktickStringF f l acc).isSome := by
  induction f generalizing l acc with
  | zero => omega
  | succ n ih =>
    simp only [readBacktickStringF]
    split_ifs with c1 c2
    · rfl
    · rfl
    · rcases mu_lt_or_nul l with hlt | hnl
      · exact ih (by omega)
      · exact absurd hnl c1

theorem skipBlockLoopF_evolves {f : Nat} {l l2 : Lexer}
    (h : skipBlockLoopF f l = some l2) : Evolves l l2 := by
  induction f generalizing l with
  | zero => simp [skipBlockLoopF] at h
  | succ n ih =>
    simp only [skipBlockLoopF] at h
    split_ifs at h with c1 c2
    · simp only [Option.some.injEq] at h
      rw [← h]
      exact evolves_addError _ _
    · simp only [Option.some.injEq] at h
      rw [← h]
      exact evolves_trans (evolves_readChar l) (evolves_readChar _)
    · exact evolves_trans (evolves_readChar l) (ih h)

theorem skipBlockLoopF_mu {f : Nat} {l l2 : Lexer}
    (h : skipBlockLoopF f l = some l2) : mu l2 ≤ mu l := by
  induction f generalizing l with
  | zero => simp [skipBlockLoopF] at h
  | succ n ih =>
    simp only [skipBlockLoopF] at h
    split_ifs at h with c1 c2
    · simp only [Option.some.injEq] at h
      rw [← h]
      exact le_of_eq (posCore_mu (addErrorL_core _ _))
    · simp only [Option.some.injEq] at h
      rw [← h]
      exact le_trans (mu_nonincreasing _) (mu_nonincreasing _)
    · exact le_trans (le_trans (ih h) (mu_nonincreasing _)) (le_refl _)

theorem skipBlockLoopF_isSome {f : Nat} {l : Lexer} (h : mu l < f) :
    (skipBlockLoopF f l).isSome := by
  induction f generalizing l with
  | zero => omega
  | succ n ih =>
    simp only [skipBlockLoopF]
    split_ifs with c1 c2
    · rfl
    · rfl
    · have := mu_decreases l c1
      exact ih (by omega)

theorem tryOperatorAux_evolves {l l2 : Lexer} {line column : Nat} {tok : Token}
    {ops : List Operator} (h : tryOperatorAux l line column ops = some (tok, l2)) :
    Evolves l l2 := by
  induction ops with
  | nil => simp [tryOperatorAux] at h
  | cons op rest ih =>
    simp only [tryOperatorAux] at h
    split_ifs at h with c1 c2 c3 c4 c5
    · simp only [Option.some.injEq, Prod.mk.injEq] at h
      rw [← h.2]
      exact evolves_readChar l
    · simp only [Option.some.injEq, Prod.mk.injEq] at h
      rw [← h.2]
      exact evolves_addError _ _
    · simp only [Option.some.injEq, Prod.mk.injEq] at h
      rw [← h.2]
      exact evolves_readChar l
    · simp only [Option.some.injEq, Prod.mk.injEq] at h
      rw [← h.2]
      exact evolves_refl _
    · exact ih h
    · exact ih h

theorem tryOperatorAux_pos {l l2 : Lexer} {line column : Nat} {tok : Token}
    {ops : List Operator} (h : tryOperatorAux l line column ops = some (tok, l2)) :
    tok.Line = line ∧ tok.Column = column := by
  induction ops with
  | nil => simp [tryOperatorAux] at h
  | cons op rest ih =>
    simp only [tryOperatorAux] at h
    split_ifs at h with c1 c2 c3 c4 c5
    · simp only [Option.some.injEq, Prod.mk.injEq] at h
      rw [← h.1]
      exact ⟨rfl, rfl⟩
    · simp only [Option.some.injEq, Prod.mk.injEq] at h
      rw [← h.1]
      exact ⟨rfl, rfl⟩
    · simp only [Option.some.injEq, Prod.mk.injEq] at h
      rw [← h.1]
      exact ⟨rfl, rfl⟩
    · simp only [Option.some.injEq, Prod.mk.injEq] at h
      rw [← h.1]
      exact ⟨rfl, rfl⟩
    · exact ih h
    · exact ih h

theorem readCharLiteral_mu (l : Lexer) : mu (readCharLiteral l).2 ≤ mu (readChar l) :=
  evolves_mu (readCharLiteral_evolves l)

theorem skipLineCommentF_mu_lt {f : Nat} {l l2 : Lexer} (hc : l.ch = '/')
    (h : skipLineCommentF f l = some l2) : mu l2 < mu l := by
  refine advanceWhileF_mu_lt ?_ ?_ h
  · rw [hc]
    decide
  · rw [hc]
    decide

theorem skipBlockCommentF_evolves {f : Nat} {l l2 : Lexer}
    (h : skipBlockCommentF f l = some l2) : Evolves l l2 :=
  evolves_trans (evolves_readChar l) (skipBlockLoopF_evolves h)

theorem skipBlockCommentF_mu_lt {f : Nat} {l l2 : Lexer} (hne : l.ch ≠ nulChar)
    (h : skipBlockCommentF f l = some l2) : mu l2 < mu l :=
  lt_of_le_of_lt (skipBlockLoopF_mu h) (mu_decreases l hne)

theorem skipBlockCommentF_isSome {f : Nat} {l : Lexer} (h : mu l < f) :
    (skipBlockCommentF f l).isSome := by
  have := mu_nonincreasing l
  exact skipBlockLoopF_isSome (by omega)

theorem tryOperatorAux_mu {l l2 : Lexer} {line column : Nat} {tok : Token}
    {ops : List Operator} (hop : ∀ op ∈ ops, strByteD op.Single 0 ≠ nulChar)
    (h : tryOperatorAux l line column ops = some (tok, l2)) :
    mu (readChar l2) < mu l := by
  induction ops with
  | nil => simp [tryOperatorAux] at h
  | cons op rest ih =>
    simp only [tryOperatorAux] at h
    split_ifs at h with c1 c2 c3 c4 c5
    · have hne : l.ch ≠ nulChar := by
        rw [c1]
        exact hop op (List.mem_cons_self op rest)
      simp only [Option.some.injEq, Prod.mk.injEq] at h
      rw [← h.2]
      exact lt_of_le_of_lt (mu_nonincreasing _) (mu_decreases l hne)
    · have hne : l.ch ≠ nulChar := by
        rw [c1]
        exact hop op (List.mem_cons_self op rest)
      simp only [Option.some.injEq, Prod.mk.injEq] at h
      rw [← h.2]
      rw [posCore_mu (readChar_congr (addErrorL_core l _))]
      exact mu_decreases l hne
    · have hne : l.ch ≠ nulChar := by
        rw [c1]
        exact hop op (List.mem_cons_self op rest)
      simp only [Option.some.injEq, Prod.mk.injEq] at h
      rw [← h.2]
      exact lt_of_le_of_lt (mu_nonincreasing _) (mu_decreases l hne)
    · have hne : l.ch ≠ nulChar := by
        rw [c1]
        exact hop op (List.mem_cons_self op rest)
      simp only [Option.some.injEq, Prod.mk.injEq] at h
      rw [← h.2]
      exact mu_decreases l hne
    · exact ih (fun o ho => hop o (List.mem_cons_of_mem op ho)) h
    · exact ih (fun o ho => hop o (List.mem_cons_of_mem op ho)) h

/-- Bundled facts for a `tryOperator` hit inside `NextToken`, after the
post-hit `readChar`. -/
theorem opHit_spec {g : Globals} {l l1 l2o : Lexer} {tokO : Token}
    (E0 : Evolves l l1)
    (hopr : tryOperatorAux l1 l1.line l1.column g.operators = some (tokO, l2o)) :
    Evolves l (readChar l2o) ∧ PosLe (l.line, l.column) (tokO.Line, tokO.Column) ∧
      PosLe (tokO.Line, tokO.Column) ((readChar l2o).line, (readChar l2o).column) ∧
      ((∀ op ∈ g.operators, strByteD op.Single 0 ≠ nulChar) →
        (tokO.type_ = EOFTT ∨ mu (readChar l2o) < mu l)) := by
  have M0 : mu l1 ≤ mu l := evolves_mu E0
  have Eo : Evolves l1 (readChar l2o) :=
    evolves_trans (tryOperatorAux_evolves hopr) (evolves_readChar _)
  obtain ⟨hpl, hpc⟩ := tryOperatorAux_pos hopr
  refine ⟨evolves_trans E0 Eo, ?_, ?_, ?_⟩
  · rw [hpl, hpc]
    exact evolves_posLe E0
  · rw [hpl, hpc]
    exact evolves_posLe Eo
  · intro hop
    have := tryOperatorAux_mu hop hopr
    exact Or.inr (by omega)

/-- Master lemma for one `NextToken` request: the final state is reached
from the initial one by cursor steps and error appends only; the token's
position is bracketed between the initial and final states; and (for
tables whose operator spellings do not start with the NUL sentinel, as
the defaults do) each request either returns the end-of-stream token or
strictly shrinks the termination measure. -/
theorem nextTokenF_spec {g : Globals} {f : Nat} {l l2 : Lexer} {tok : Token}
    (h : nextTokenF g f l = some (tok, l2)) :
    Evolves l l2 ∧ PosLe (l.line, l.column) (tok.Line, tok.Column) ∧
      PosLe (tok.Line, tok.Column) (l2.line, l2.column) ∧
      ((∀ op ∈ g.operators, strByteD op.Single 0 ≠ nulChar) →
        (tok.type_ = EOFTT ∨ mu l2 < mu l)) := by
  induction f generalizing l tok l2 with
  | zero => simp [nextTokenF] at h
  | succ n ih =>
    simp only [nextTokenF] at h
    rcases hws : skipWhitespaceF (n + 1) l with _ | l1
    · rw [hws] at h
      exact Option.noConfusion h
    · rw [hws] at h
      simp only [] at h
      have E0 : Evolves l l1 := advanceWhileF_evolves hws
      have M0 : mu l1 ≤ mu l := evolves_mu E0
      split_ifs at h with c1 c2 c3 c4 c5 c6 c7 c8
      · rcases hlc : skipLineCommentF (n + 1) l1 with _ | l2c
        · rw [hlc] at h
          exact Option.noConfusion h
        · rw [hlc] at h
          have Ec : Evolves l1 l2c := advanceWhileF_evolves hlc
          have Mc : mu l2c < mu l1 := skipLineCommentF_mu_lt c1.1 hlc
          obtain ⟨ih1, ih2, ih3, ih4⟩ := ih h
          refine ⟨evolves_trans (evolves_trans E0 Ec) ih1,
            posLe_trans (evolves_posLe (evolves_trans E0 Ec)) ih2, ih3, ?_⟩
          intro hop
          rcases ih4 hop with he | hm
          · exact Or.inl he
          · exact Or.inr (by omega)
      · rcases hbc : skipBlockCommentF (n + 1) l1 with _ | l2c
        · rw [hbc] at h
          exact Option.noConfusion h
        · rw [hbc] at h
          have Ec : Evolves l1 l2c := skipBlockCommentF_evolves hbc
          have Mc : mu l2c < mu l1 := by
            refine skipBlockCommentF_mu_lt ?_ hbc
            rw [c2.1]
            decide
          obtain ⟨ih1, ih2, ih3, ih4⟩ := ih h
          refine ⟨evolves_trans (evolves_trans E0 Ec) ih1,
            posLe_trans (evolves_posLe (evolves_trans E0 Ec)) ih2, ih3, ?_⟩
          intro hop
          rcases ih4 hop with he | hm
          · exact Or.inl he
          · exact Or.inr (by omega)
      · rcases hid : readIdentifierF (n + 1) l1 with _ | ⟨lit, l2i⟩
        · rw [hid] at h
          exact Option.noConfusion h
        · rw [hid] at h
          simp only [] at h
          have Ei : Evolves l1 l2i := readIdentifierF_evolves hid
          have Mi : mu l2i < mu l1 := readIdentifierF_mu_lt c3 hid
          split_ifs at h with c5 <;>
            · simp only [Option.some.injEq, Prod.mk.injEq] at h
              obtain ⟨h1, h2⟩ := h
              subst h1
              subst h2
              exact ⟨evolves_trans E0 Ei, evolves_posLe E0,
                evolves_posLe Ei, fun hop => Or.inr (by omega)⟩
      · rcases hnum : readNumberF (n + 1) l1 with _ | ⟨lit, l2n⟩
        · rw [hnum] at h
          exact Option.noConfusion h
        · rw [hnum] at h
          simp only [Option.some.injEq, Prod.mk.injEq] at h
          obtain ⟨h1, h2⟩ := h
          subst h1
          subst h2
          have En : Evolves l1 l2n := readNumberF_evolves hnum
          have Mn : mu l2n < mu l1 := readNumberF_mu_lt c4 hnum
          exact ⟨evolves_trans E0 En, evolves_posLe E0,
            evolves_posLe En, fun hop => Or.inr (by omega)⟩
      · rcases hopr : tryOperatorAux l1 l1.line l1.column g.operators with _ | ⟨tokO, l2o⟩
        · rw [hopr] at h
          simp only [Option.some.injEq, Prod.mk.injEq] at h
          obtain ⟨h1, h2⟩ := h
          subst h1
          subst h2
          have Ec : Evolves l1 (readCharLiteral l1).2 :=
            evolves_trans (evolves_readChar l1) (readCharLiteral_evolves l1)
          have Mc : mu (readCharLiteral l1).2 < mu l1 := by
            have h5 := readCharLiteral_mu l1
            have h6 : mu (readChar l1) < mu l1 := by
              refine mu_decreases l1 ?_
              rw [c5]
              decide
            omega
          exact ⟨evolves_trans E0 Ec, evolves_posLe E0,
            evolves_posLe Ec, fun hop => Or.inr (by omega)⟩
        · rw [hopr] at h
          simp only [Option.some.injEq, Prod.mk.injEq] at h
          obtain ⟨h1, h2⟩ := h
          subst h1
          subst h2
          exact opHit_spec E0 hopr
      · rcases hopr : tryOperatorAux l1 l1.line l1.column g.operators with _ | ⟨tokO, l2o⟩
        · rw [hopr] at h
          simp only [] at h
          rcases hst : readStringF (n + 1) l1 "" with _ | ⟨str, l2s⟩
          · rw [hst] at h
            exact Option.noConfusion h
          · rw [hst] at h
            simp only [Option.some.injEq, Prod.mk.injEq] at h
            obtain ⟨h1, h2⟩ := h
            subst h1
            subst h2
            have Es : Evolves l1 (readChar l2s) :=
              evolves_trans (readStringF_evolves hst) (evolves_readChar _)
            have Ms : mu (readChar l2s) < mu l1 := by
              have h5 := readStringF_mu hst
              have h6 := mu_nonincreasing l2s
              have h7 : mu (readChar l1) < mu l1 := by
                refine mu_decreases l1 ?_
                rw [c6]
                decide
              omega
            exact ⟨evolves_trans E0 Es, evolves_posLe E0,
              evolves_posLe Es, fun hop => Or.inr (by omega)⟩
        · rw [hopr] at h
          simp only [Option.some.injEq, Prod.mk.injEq] at h
          obtain ⟨h1, h2⟩ := h
          subst h1
          subst h2
          exact opHit_spec E0 hopr
      · rcases hopr : tryOperatorAux l1 l1.line l1.column g.operators with _ | ⟨tokO, l2o⟩
        · rw [hopr] at h
          simp only [] at h
          rcases hbt : readBacktickStringF (n + 1) l1 "" with _ | ⟨str, l2s⟩
          · rw [hbt] at h
            exact Option.noConfusion h
          · rw [hbt] at h
            simp only [Option.some.injEq, Prod.mk.injEq] at h
            obtain ⟨h1, h2⟩ := h
            subst h1
            subst h2
            have Es : Evolves l1 (readChar l2s) :=
              evolves_trans (readBacktickStringF_evolves hbt) (evolves_readChar _)
            have Ms : mu (readChar l2s) < mu l1 := by
              have h5 := readBacktickStringF_mu hbt
              have h6 := mu_nonincreasing l2s
              have h7 : mu (readChar l1) < mu l1 := by
                refine mu_decreases l1 ?_
                rw [c7]
                decide
              omega
            exact ⟨evolves_trans E0 Es, evolves_posLe E0,
              evolves_posLe Es, fun hop => Or.inr (by omega)⟩
        · rw [hopr] at h
          simp only [Option.some.injEq, Prod.mk.injEq] at h
          obtain ⟨h1, h2⟩ := h
          subst h1
          subst h2
          exact opHit_spec E0 hopr
      · rcases hopr : tryOperatorAux l1 l1.line l1.column g.operators with _ | ⟨tokO, l2o⟩
        · rw [hopr] at h
          simp only [Option.some.injEq, Prod.mk.injEq] at h
          obtain ⟨h1, h2⟩ := h
          subst h1
          subst h2
          have Ee : Evolves l1 (readChar l1) := evolves_readChar l1
          exact ⟨evolves_trans E0 Ee, evolves_posLe E0,
            evolves_posLe Ee, fun hop => Or.inl rfl⟩
        · rw [hopr] at h
          simp only [Option.some.injEq, Prod.mk.injEq] at h
          obtain ⟨h1, h2⟩ := h
          subst h1
          subst h2
          exact opHit_spec E0 hopr
      · rcases hopr : tryOperatorAux l1 l1.line l1.column g.operators with _ | ⟨tokO, l2o⟩
        · rw [hopr] at h
          simp only [] at h
          rcases hsc : g.singleCharTokens.lookup l1.ch with _ | tt
          · rw [hsc] at h
            simp only [Option.some.injEq, Prod.mk.injEq] at h
            obtain ⟨h1, h2⟩ := h
            subst h1
            subst h2
            have Ee : Evolves l1 (readChar (addErrorL l1
                ("unexpected character '" ++ l1.ch.toString ++ "' (Unicode: U+" ++
                  hex4 l1.ch.toNat ++ ")"))) :=
              evolves_trans (evolves_addError _ _) (evolves_readChar _)
            have Me : mu (readChar (addErrorL l1
                ("unexpected character '" ++ l1.ch.toString ++ "' (Unicode: U+" ++
                  hex4 l1.ch.toNat ++ ")"))) < mu l1 := by
              rw [posCore_mu (readChar_congr (addErrorL_core l1 _))]
              exact mu_decreases l1 c8
            exact ⟨evolves_trans E0 Ee, evolves_posLe E0,
              evolves_posLe Ee, fun hop => Or.inr (by omega)⟩
          · rw [hsc] at h
            simp only [Option.some.injEq, Prod.mk.injEq] at h
            obtain ⟨h1, h2⟩ := h
            subst h1
            subst h2
            have Ee : Evolves l1 (readChar l1) := evolves_readChar l1
            have Me : mu (readChar l1) < mu l1 := mu_decreases l1 c8
            exact ⟨evolves_trans E0 Ee, evolves_posLe E0,
              evolves_posLe Ee, fun hop => Or.inr (by omega)⟩
        · rw [hopr] at h
          simp only [Option.some.injEq, Prod.mk.injEq] at h
          obtain ⟨h1, h2⟩ := h
          subst h1
          subst h2
          exact opHit_spec E0 hopr

/-- Fuel sufficiency: one unit more fuel than the termination measure
always produces a token. -/
theorem nextTokenF_isSome {g : Globals} {f : Nat} {l : Lexer} (h : mu l < f) :
    (nextTokenF g f l).isSome := by
  induction f generalizing l with
  | zero => omega
  | succ n ih =>
    simp only [nextTokenF]
    have hws0 : (skipWhitespaceF (n + 1) l).isSome :=
      advanceWhileF_isSome (by decide) h
    rcases hws : skipWhitespaceF (n + 1) l with _ | l1
    · rw [hws] at hws0
      exact Bool.noConfusion hws0
    · simp only []
      have E0 : Evolves l l1 := advanceWhileF_evolves hws
      have M0 : mu l1 ≤ mu l := evolves_mu E0
      split_ifs with c1 c2 c3 c4 c5 c6 c7 c8
      · have hlc0 : (skipLineCommentF (n + 1) l1).isSome :=
          advanceWhileF_isSome (by decide) (by omega)
        rcases hlc : skipLineCommentF (n + 1) l1 with _ | l2c
        · rw [hlc] at hlc0
          exact Bool.noConfusion hlc0
        · simp only []
          have Mc : mu l2c < mu l1 := skipLineCommentF_mu_lt c1.1 hlc
          apply ih
          omega
      · have hbc0 : (skipBlockCommentF (n + 1) l1).isSome :=
          skipBlockCommentF_isSome (by omega)
        rcases hbc : skipBlockCommentF (n + 1) l1 with _ | l2c
        · rw [hbc] at hbc0
          exact Bool.noConfusion hbc0
        · simp only []
          have Mc : mu l2c < mu l1 := by
            refine skipBlockCommentF_mu_lt ?_ hbc
            rw [c2.1]
            decide
          apply ih
          omega
      · have hid0 : (readIdentifierF (n + 1) l1).isSome :=
          readIdentifierF_isSome (by omega)
        rcases hid : readIdentifierF (n + 1) l1 with _ | ⟨lit, l2i⟩
        · rw [hid] at hid0
          exact Bool.noConfusion hid0
        · simp only []
          split_ifs <;> rfl
      · have hn0 : (readNumberF (n + 1) l1).isSome :=
          readNumberF_isSome (by omega)
        rcases hnum : readNumberF (n + 1) l1 with _ | ⟨lit, l2n⟩
        · rw [hnum] at hn0
          exact Bool.noConfusion hn0
        · rfl
      · rcases hopr : tryOperatorAux l1 l1.line l1.column g.operators with _ | ⟨tokO, l2o⟩
        · rfl
        · rfl
      · rcases hopr : tryOperatorAux l1 l1.line l1.column g.operators with _ | ⟨tokO, l2o⟩
        · have hst0 : (readStringF (n + 1) l1 "").isSome :=
            readStringF_isSome (by omega)
          rcases hst : readStringF (n + 1) l1 "" with _ | ⟨str, l2s⟩
          · rw [hst] at hst0
            exact Bool.noConfusion hst0
          · rfl
        · rfl
      · rcases hopr : tryOperatorAux l1 l1.line l1.column g.operators with _ | ⟨tokO, l2o⟩
        · have hbt0 : (readBacktickStringF (n + 1) l1 "").isSome :=
            readBacktickStringF_isSome (by omega)
          rcases hbt : readBacktickStringF (n + 1) l1 "" with _ | ⟨str, l2s⟩
          · rw [hbt] at hbt0
            exact Bool.noConfusion hbt0
          · rfl
        · rfl
      · rcases hopr : tryOperatorAux l1 l1.line l1.column g.operators with _ | ⟨tokO, l2o⟩
        · rfl
        · rfl
      · rcases hopr : tryOperatorAux l1 l1.line l1.column g.operators with _ | ⟨tokO, l2o⟩
        · rcases hsc : g.singleCharTokens.lookup l1.ch with _ | tt
          · rfl
          · rfl
        · rfl

/-- The bundled facts of `nextTokenF_spec`, transported to the total
wrapper `NextToken` (whose fuel is always sufficient). -/
theorem NextToken_spec (g : Globals) (l : Lexer) :
    Evolves l (NextToken g l).2 ∧
      PosLe (l.line, l.column) ((NextToken g l).1.Line, (NextToken g l).1.Column) ∧
      PosLe ((NextToken g l).1.Line, (NextToken g l).1.Column)
        ((NextToken g l).2.line, (NextToken g l).2.column) ∧
      ((∀ op ∈ g.operators, strByteD op.Single 0 ≠ nulChar) →
        ((NextToken g l).1.type_ = EOFTT ∨ mu (NextToken g l).2 < mu l)) := by
  have h0 : (nextTokenF g (fuelFor l) l).isSome :=
    nextTokenF_isSome (Nat.lt_succ_self _)
  rcases heq : nextTokenF g (fuelFor l) l with _ | ⟨tok, l2⟩
  · rw [heq] at h0
    exact Bool.noConfusion h0
  · have hs := nextTokenF_spec heq
    simp only [NextToken, heq, Option.getD_some]
    exact hs

/-- Tokens drained by `TokenizeAll` are produced in position order, and
all of them lie at or after the starting state's position. -/
theorem tokenizeAllF_chain {g : Globals} {f : Nat} {l : Lexer} {ts : List Token}
    {es : List LexError} (h : tokenizeAllF g f l = some (ts, es)) :
    List.Chain' TokLe ts ∧
      (∀ t : Token, ts.head? = some t → PosLe (l.line, l.column) (t.Line, t.Column)) := by
  induction f generalizing l ts es with
  | zero => simp [tokenizeAllF] at h
  | succ n ih =>
    simp only [tokenizeAllF] at h
    split_ifs at h with c1
    · simp only [Option.some.injEq, Prod.mk.injEq] at h
      rw [← h.1]
      exact ⟨List.chain'_nil, fun t ht => Option.noConfusion ht⟩
    · rcases hta : tokenizeAllF g n (NextToken g l).2 with _ | ⟨ts2, es2⟩
      · rw [hta] at h
        exact Option.noConfusion h
      · rw [hta] at h
        simp only [Option.some.injEq, Prod.mk.injEq] at h
        obtain ⟨h1, h2⟩ := h
        subst h1
        subst h2
        obtain ⟨ihc, ihh⟩ := ih hta
        obtain ⟨hsE, hs1, hs2, hs3⟩ := NextToken_spec g l
        constructor
        · cases ts2 with
          | nil => exact List.chain'_singleton _
          | cons t2 rest =>
            refine (List.chain'_cons).mpr ⟨?_, ihc⟩
            exact posLe_trans hs2 (ihh t2 rfl)
        · intro t ht
          simp only [List.head?_cons, Option.some.injEq] at ht
          rw [← ht]
          exact hs1

/-- When the operator table has no NUL-headed spelling (as the default
table does), the token drain terminates: the fuel budget is sufficient. -/
theorem tokenizeAllF_isSome {g : Globals} {f : Nat} {l : Lexer}
    (hop : ∀ op ∈ g.operators, strByteD op.Single 0 ≠ nulChar) (h : mu l < f) :
    (tokenizeAllF g f l).isSome := by
  induction f generalizing l with
  | zero => omega
  | succ n ih =>
    simp only [tokenizeAllF]
    split_ifs with c1
    · rfl
    · obtain ⟨hsE, hs1, hs2, hs3⟩ := NextToken_spec g l
      rcases hs3 hop with he | hm
      · exact absurd he c1
      · have h2 : (tokenizeAllF g n (NextToken g l).2).isSome := ih (by omega)
        rcases hta : tokenizeAllF g n (NextToken g l).2 with _ | ⟨ts2, es2⟩
        · rw [hta] at h2
          exact Bool.noConfusion h2
        · rfl

theorem readCharIter_succ (n : Nat) (l : Lexer) :
    readCharIter (n + 1) l = readChar (readCharIter n l) := by
  induction n generalizing l with
  | zero => rfl
  | succ m ih =>
    have : readCharIter (m + 1 + 1) l = readCharIter (m + 1) (readChar l) := rfl
    rw [this, ih (readChar l)]
    rfl

theorem take_getD (s : List Char) (i : Nat) (h : i < s.length) :
    s.take (i + 1) = s.take i ++ [s.getD i nulChar] := by
  rw [List.take_succ]
  rw [List.getElem?_eq_getElem h]
  rw [List.getD_eq_getElem?_getD]
  rw [List.getElem?_eq_getElem h]
  rfl

theorem getD_mem (s : List Char) (i : Nat) (h : i < s.length) :
    s.getD i nulChar ∈ s := by
  rw [List.getD_eq_getElem?_getD, List.getElem?_eq_getElem h]
  exact List.getElem_mem h

theorem lineIdx_succ (s : List Char) (i : Nat) (h : i < s.length) :
    lineIdx s (i + 1) =
      lineIdx s i + (if s.getD i nulChar = '\n' then 1 else 0) := by
  simp only [lineIdx, take_getD s i h, List.count_append]
  split_ifs with hc
  · rw [hc]
    simp
  · simp only [List.getD_eq_getElem?_getD] at hc
    simp [List.count_singleton', hc]

theorem colIdx_succ_nl (s : List Char) (i : Nat) (h : i < s.length)
    (hc : s.getD i nulChar = '\n') : colIdx s (i + 1) = 0 := by
  have hc2 := hc
  simp only [List.getD_eq_getElem?_getD] at hc2
  simp [colIdx, take_getD s i h, List.takeWhile_cons, hc2]

theorem colIdx_succ (s : List Char) (i : Nat) (h : i < s.length)
    (hc : s.getD i nulChar ≠ '\n') : colIdx s (i + 1) = colIdx s i + 1 := by
  have hc2 := hc
  simp only [List.getD_eq_getElem?_getD] at hc2
  simp [colIdx, take_getD s i h, List.takeWhile_cons, hc2]

/-- Cursor bookkeeping invariant tying the scanner's `line`/`column` to
the true line/column functions of the input: at a live code point the
reported line is the true 1-indexed line of the cursor, and the reported
column is the true column shifted by one on every line after the first
(the line feed itself is booked as column 1 of the line it opens). -/
def cursorInv (s : List Char) (l : Lexer) : Prop :=
  (l.ch = nulChar → s.length ≤ l.readPosition ∨
    (l.position = 0 ∧ l.readPosition = 0 ∧ l.line = 1 ∧ l.column = 0)) ∧
  (l.ch ≠ nulChar →
    l.readPosition = l.position + 1 ∧ l.readPosition ≤ s.length ∧
    l.ch = s.getD l.position nulChar ∧
    l.line = lineIdx s l.readPosition + 1 ∧
    l.column = colIdx s l.readPosition +
      (if lineIdx s l.readPosition = 0 then 0 else 1))

theorem cursorInv_step {s : List Char} {l : Lexer} (hs : nulChar ∉ s)
    (hin : l.input = s) (h : cursorInv s l) : cursorInv s (readChar l) := by
  obtain ⟨hnul, hlive⟩ := h
  by_cases hend : l.input.length ≤ l.readPosition
  · have hre : readChar l = { l with ch := nulChar, column := l.column + 1 } := by
      simp only [readChar, if_pos hend]
      split_ifs with hx
      · exact absurd hx (by decide)
      · rfl
    rw [hre]
    constructor
    · intro _
      left
      rw [hin] at hend
      exact hend
    · intro hx
      exact absurd rfl hx
  · push_neg at hend
    have hrp : l.readPosition < s.length := by
      rw [hin] at hend
      exact hend
    have key : l.line = lineIdx s l.readPosition + 1 ∧
        l.column = colIdx s l.readPosition +
          (if lineIdx s l.readPosition = 0 then 0 else 1) := by
      by_cases hch : l.ch = nulChar
      · rcases hnul hch with hbig | ⟨hp0, hr0, hl1, hc0⟩
        · omega
        · rw [hr0, hl1, hc0]
          simp [lineIdx, colIdx]
      · obtain ⟨_, _, _, h4, h5⟩ := hlive hch
        exact ⟨h4, h5⟩
    have hc : s.getD l.readPosition nulChar ∈ s := getD_mem s l.readPosition hrp
    have hcnn : s.getD l.readPosition nulChar ≠ nulChar := by
      intro he
      rw [he] at hc
      exact hs hc
    by_cases hnl : s.getD l.readPosition nulChar = '\n'
    · have hre : readChar l =
          { l with
            ch := s.getD l.readPosition nulChar
            position := l.readPosition
            readPosition := l.readPosition + 1
            line := l.line + 1
            column := 1 } := by
        simp only [readChar]
        rw [if_neg (show ¬ l.input.length ≤ l.readPosition by omega)]
        simp only [hin]
        split_ifs
        rfl
      rw [hre]
      constructor
      · intro hx2
        exact absurd hx2 hcnn
      · intro _
        refine ⟨rfl, ?_, rfl, ?_, ?_⟩
        · show l.readPosition + 1 ≤ s.length
          omega
        · show l.line + 1 = lineIdx s (l.readPosition + 1) + 1
          have h1 := key.1
          rw [lineIdx_succ s _ hrp, if_pos hnl]
          omega
        · show 1 = colIdx s (l.readPosition + 1) +
            (if lineIdx s (l.readPosition + 1) = 0 then 0 else 1)
          rw [colIdx_succ_nl s _ hrp hnl, lineIdx_succ s _ hrp, if_pos hnl]
          rw [if_neg (show ¬ lineIdx s l.readPosition + 1 = 0 by omega)]
    · have hre : readChar l =
          { l with
            ch := s.getD l.readPosition nulChar
            position := l.readPosition
            readPosition := l.readPosition + 1
            column := l.column + 1 } := by
        simp only [readChar]
        rw [if_neg (show ¬ l.input.length ≤ l.readPosition by omega)]
        simp only [hin]
        split_ifs
        rfl
      rw [hre]
      constructor
      · intro hx2
        exact absurd hx2 hcnn
      · intro _
        refine ⟨rfl, ?_, rfl, ?_, ?_⟩
        · show l.readPosition + 1 ≤ s.length
          omega
        · show l.line = lineIdx s (l.readPosition + 1) + 1
          have h1 := key.1
          rw [lineIdx_succ s _ hrp, if_neg hnl]
          simp only [Nat.add_zero]
          omega
        · show l.column + 1 = colIdx s (l.readPosition + 1) +
            (if lineIdx s (l.readPosition + 1) = 0 then 0 else 1)
          have h2 := key.2
          rw [colIdx_succ s _ hrp hnl, lineIdx_succ s _ hrp, if_neg hnl]
          simp only [Nat.add_zero]
          omega

theorem cursorInv_iter (s : List Char) (hs : nulChar ∉ s) (n : Nat) :
    cursorInv s (readCharIter n (mkLexer s)) := by
  induction n with
  | zero =>
    constructor
    · intro _
      right
      exact ⟨rfl, rfl, rfl, rfl⟩
    · intro hx
      exact absurd rfl hx
  | succ m ih =>
    rw [readCharIter_succ]
    have hin : (readCharIter m (mkLexer s)).input = s := readCharIter_input m _
    exact cursorInv_step hs hin ih

/-- The default operator table has no NUL-headed spelling. -/
theorem defaultOps_head_ne_nul :
    ∀ op ∈ defaultGlobals.operators, strByteD op.Single 0 ≠ nulChar := by
  decide

/-- C1: tokenizing `"let x = 42 + 3.14;"` with a default-constructed
lexer produces exactly the seven tokens keyword `let`, identifier `x`,
assignment `=`, number `42`, operator `+`, number `3.14`, punctuation
`;`, in this order, and records zero errors. -/
theorem claim_C1_let_statement :
    TokenizeAll defaultGlobals (NewLexer "let x = 42 + 3.14;") =
      ([⟨LET, "let", 1, 1⟩, ⟨IDENT, "x", 1, 5⟩, ⟨ASSIGN, "=", 1, 7⟩,
        ⟨NUMBER, "42", 1, 9⟩, ⟨PLUS, "+", 1, 12⟩, ⟨NUMBER, "3.14", 1, 14⟩,
        ⟨SEMICOLON, ";", 1, 18⟩], []) := by
  decide

/-- C2: with the default tables, `NextToken` always succeeds within its
fuel budget (no exception, panic, or divergence), `TokenizeAll` likewise
drains every input within its budget, and every `NextToken` call either
returns the end-of-stream token or strictly advances the cursor measure
past the consumed (possibly erroneous) lexeme. -/
theorem claim_C2_termination :
    (∀ (g : Globals) (l : Lexer), (nextTokenF g (fuelFor l) l).isSome) ∧
    (∀ l : Lexer, (tokenizeAllF defaultGlobals (fuelFor l) l).isSome) ∧
    (∀ l : Lexer, (NextToken defaultGlobals l).1.type_ = EOFTT ∨
      mu (NextToken defaultGlobals l).2 < mu l) :=
  ⟨fun _ _ => nextTokenF_isSome (Nat.lt_succ_self _),
   fun _ => tokenizeAllF_isSome defaultOps_head_ne_nul (Nat.lt_succ_self _),
   fun l => (NextToken_spec defaultGlobals l).2.2.2 defaultOps_head_ne_nul⟩

/-- C3 counterexample: constructing a lexer with a keyword extension
mutates the package-level tables, so a default lexer built afterwards on
`"foo "` produces different tokens than one built before. -/
theorem claim_C3_counterexample :
    (TokenizeAll
        (NewLexerWithConfig "x" (some ⟨[("foo", "FOO")], [], []⟩) defaultGlobals).2
        (NewLexer "foo ")).1 ≠
      (TokenizeAll defaultGlobals (NewLexer "foo ")).1 := by
  decide

/-- C3 amended: the extension merge is global mutable state: after one
lexer is constructed with a `foo` keyword extension, a plain `NewLexer`
scan of `"foo "` classifies `foo` with the extended type `FOO`, while
before the merge it is a plain identifier. -/
theorem claim_C3_amended :
    (TokenizeAll
        (NewLexerWithConfig "x" (some ⟨[("foo", "FOO")], [], []⟩) defaultGlobals).2
        (NewLexer "foo ")).1 = [⟨"FOO", "foo", 1, 1⟩] ∧
    (TokenizeAll defaultGlobals (NewLexer "foo ")).1 = [⟨IDENT, "foo", 1, 1⟩] := by
  decide

/-- C5 evaluation at the failing input: `"123abc"` yields exactly one
illegal token and exactly one error containing "numbers cannot be
followed by letters", but the token text is `"123ab"`, not `"123abc"`:
`readChar` does not advance `position` at end of input, so the final
code point of an input-final lexeme is lost from the slice. -/
theorem claim_C5_eval :
    TokenizeAll defaultGlobals (NewLexer "123abc") =
      ([⟨ILLEGAL, "123ab", 1, 1⟩],
       [⟨"invalid number: numbers cannot be followed by letters", 1, 4⟩]) := by
  decide

/-- C6 evaluation: the string literal `"\0"` produces a STRING token
whose text is empty - the decoded NUL is discarded by the `char != 0`
error-sentinel guard in `readString` - while `"\x41"` correctly decodes
to `"A"`, and the single-letter escapes decode per the documented table
(shown here through character literals). -/
theorem claim_C6_eval :
    TokenizeAll defaultGlobals
        (NewLexer (String.mk [dquoteChar, backslashChar, '0', dquoteChar])) =
      ([⟨STRING, "", 1, 1⟩], []) ∧
    TokenizeAll defaultGlobals
        (NewLexer (String.mk [dquoteChar, backslashChar, 'x', '4', '1', dquoteChar])) =
      ([⟨STRING, "A", 1, 1⟩], []) ∧
    TokenizeAll defaultGlobals
        (NewLexer (String.mk
          ([squoteChar, backslashChar, 'a', squoteChar, ' '] ++
           [squoteChar, backslashChar, 'b', squoteChar, ' '] ++
           [squoteChar, backslashChar, 'f', squoteChar, ' '] ++
           [squoteChar, backslashChar, 'n', squoteChar, ' '] ++
           [squoteChar, backslashChar, 'r', squoteChar, ' '] ++
           [squoteChar, backslashChar, 't', squoteChar, ' '] ++
           [squoteChar, backslashChar, 'v', squoteChar, ' '] ++
           [squoteChar, backslashChar, backslashChar, squoteChar, ' '] ++
           [squoteChar, backslashChar, squoteChar, squoteChar, ' '] ++
           [squoteChar, backslashChar, dquoteChar, squoteChar, ' ']))) =
      ([⟨CHAR, String.mk [Char.ofNat 7], 1, 1⟩,
        ⟨CHAR, String.mk [Char.ofNat 8], 1, 6⟩,
        ⟨CHAR, String.mk [Char.ofNat 12], 1, 11⟩,
        ⟨CHAR, "\n", 1, 16⟩,
        ⟨CHAR, String.mk [Char.ofNat 13], 1, 21⟩,
        ⟨CHAR, "\t", 1, 26⟩,
        ⟨CHAR, String.mk [Char.ofNat 11], 1, 31⟩,
        ⟨CHAR, String.mk [backslashChar], 1, 36⟩,
        ⟨CHAR, String.mk [squoteChar], 1, 41⟩,
        ⟨CHAR, String.mk [dquoteChar], 1, 46⟩], []) := by
  refine ⟨by decide, by decide, by decide⟩

set_option maxRecDepth 40000 in
/-- C8 counterexample: on `"0xGHI"` the single recorded error is the
empty-hex-body message, which does not contain "non-hex characters"
(that message fires only when at least one hex digit precedes the
letters). -/
theorem claim_C8_counterexample :
    (TokenizeAll defaultGlobals (NewLexer "0xGHI")).2 =
      [⟨"invalid hexadecimal number: must contain at least one hex digit after 0x", 1, 3⟩] ∧
    ¬ ("non-hex characters".data <:+:
        "invalid hexadecimal number: must contain at least one hex digit after 0x".data) := by
  refine ⟨by decide, by decide⟩

set_option maxRecDepth 40000 in
/-- C8 amended: `"0xGHI"` produces an illegal-kind token (text `"0x"`,
followed by an identifier token for the truncated letter run) and
records exactly one error whose message contains "must contain at least
one hex digit after 0x". -/
theorem claim_C8_amended :
    TokenizeAll defaultGlobals (NewLexer "0xGHI") =
      ([⟨ILLEGAL, "0x", 1, 1⟩, ⟨IDENT, "GH", 1, 3⟩],
       [⟨"invalid hexadecimal number: must contain at least one hex digit after 0x", 1, 3⟩]) ∧
    ("must contain at least one hex digit after 0x".data <:+:
      "invalid hexadecimal number: must contain at least one hex digit after 0x".data) := by
  refine ⟨by decide, by decide⟩

/-- C9: consecutive tokens of one scan are position-ordered: the later
token's (line, column) is never lexicographically earlier. -/
theorem claim_C9_monotone (g : Globals) (s : String) (i : Nat)
    (h : i + 1 < ((TokenizeAll g (NewLexer s)).1).length) :
    TokLe (((TokenizeAll g (NewLexer s)).1).get ⟨i, by omega⟩)
      (((TokenizeAll g (NewLexer s)).1).get ⟨i + 1, h⟩) := by
  rcases hta : tokenizeAllF g (fuelFor (NewLexer s)) (NewLexer s) with _ | ⟨ts, es⟩
  · have hempty : TokenizeAll g (NewLexer s) = ([], []) := by
      simp [TokenizeAll, hta]
    rw [hempty] at h
    simp at h
  · have heval : TokenizeAll g (NewLexer s) = (ts, es) := by
      simp [TokenizeAll, hta]
    have hchain := (tokenizeAllF_chain hta).1
    have hget := List.chain'_iff_get.mp hchain
    revert h
    rw [heval]
    intro h
    simp only [] at h ⊢
    exact hget i (by omega)

/-- C9 witness at the input `"a b"`, first token pair. -/
theorem claim_C9_witness :
    0 + 1 < ((TokenizeAll defaultGlobals (NewLexer "a b")).1).length ∧
    TokLe (((TokenizeAll defaultGlobals (NewLexer "a b")).1).get ⟨0, by decide⟩)
      (((TokenizeAll defaultGlobals (NewLexer "a b")).1).get ⟨0 + 1, by decide⟩) :=
  ⟨by decide, claim_C9_monotone defaultGlobals "a b" 0 (by decide)⟩

theorem advanceWhileF_stop {p : Char → Bool} {f : Nat} {l : Lexer}
    (h : p l.ch = false) : advanceWhileF p (f + 1) l = some l := by
  simp [advanceWhileF, h]

theorem tryOperatorAux_none {l : Lexer} {line column : Nat} {ops : List Operator}
    (h : ∀ op ∈ ops, l.ch ≠ strByteD op.Single 0) :
    tryOperatorAux l line column ops = none := by
  induction ops with
  | nil => rfl
  | cons op rest ih =>
    simp only [tryOperatorAux]
    rw [if_neg (h op (List.mem_cons_self op rest))]
    exact ih (fun o ho => h o (List.mem_cons_of_mem op ho))

/-- Dispatch of `NextToken` at the end-of-input sentinel: with no
operator hit, the EOF token is returned and the state takes one more
(end-of-input) `readChar`. -/
theorem nextTokenF_eof_case {g : Globals} {f : Nat} {l : Lexer}
    (h : l.ch = nulChar)
    (hopn : tryOperatorAux l l.line l.column g.operators = none) :
    nextTokenF g (f + 1) l = some (⟨EOFTT, "", l.line, l.column⟩, readChar l) := by
  have hws1 : skipWhitespaceF (f + 1) l = some l := by
    refine advanceWhileF_stop ?_
    rw [h]
    decide
  simp only [nextTokenF]
  rw [hws1]
  simp only []
  rw [if_neg (show ¬ (l.ch = '/' ∧ peekChar l = '/') from
    fun hc => absurd (h ▸ hc.1) (by decide))]
  rw [if_neg (show ¬ (l.ch = '/' ∧ peekChar l = '*') from
    fun hc => absurd (h ▸ hc.1) (by decide))]
  rw [if_neg (show ¬ (isLetter l.ch = true) by rw [h]; decide)]
  rw [if_neg (show ¬ (isDigit l.ch = true) by rw [h]; decide)]
  rw [hopn]
  simp only []
  rw [if_neg (show ¬ (l.ch = squoteChar) from fun hc => absurd (h ▸ hc) (by decide))]
  rw [if_neg (show ¬ (l.ch = dquoteChar) from fun hc => absurd (h ▸ hc) (by decide))]
  rw [if_neg (show ¬ (l.ch = backtickChar) from fun hc => absurd (h ▸ hc) (by decide))]
  rw [if_pos h]

/-- Dispatch of `NextToken` at an opening single quote: with no operator
hit, the next token is always the character-literal token computed by
`readCharLiteral`. -/
theorem nextTokenF_squote_case {g : Globals} {f : Nat} {l : Lexer}
    (h : l.ch = squoteChar)
    (hopn : tryOperatorAux l l.line l.column g.operators = none) :
    nextTokenF g (f + 1) l =
      some (⟨CHAR, (readCharLiteral l).1, l.line, l.column⟩, (readCharLiteral l).2) := by
  have hws1 : skipWhitespaceF (f + 1) l = some l := by
    refine advanceWhileF_stop ?_
    rw [h]
    decide
  simp only [nextTokenF]
  rw [hws1]
  simp only []
  rw [if_neg (show ¬ (l.ch = '/' ∧ peekChar l = '/') from
    fun hc => absurd (h ▸ hc.1) (by decide))]
  rw [if_neg (show ¬ (l.ch = '/' ∧ peekChar l = '*') from
    fun hc => absurd (h ▸ hc.1) (by decide))]
  rw [if_neg (show ¬ (isLetter l.ch = true) by rw [h]; decide)]
  rw [if_neg (show ¬ (isDigit l.ch = true) by rw [h]; decide)]
  rw [hopn]
  simp only []
  rw [if_pos h]

/-- C4 counterexample: the second end-of-stream token of the empty input
differs from the first (its column has advanced by one). -/
theorem claim_C4_counterexample :
    (NextToken defaultGlobals (NextToken defaultGlobals (NewLexer "")).2).1 ≠
      (NextToken defaultGlobals (NewLexer "")).1 := by
  decide

/-- C4 amended: once the scanner sits at the end-of-input sentinel, each
further `NextToken` call (under the default tables) returns an EOF token
with the same type, literal and line and appends no error, but its
reported column grows by one per call, because the trailing `readChar`
still increments `column` at end of input. -/
theorem claim_C4_amended (l : Lexer) (h1 : l.ch = nulChar)
    (h2 : l.input.length ≤ l.readPosition) :
    NextToken defaultGlobals l =
      (⟨EOFTT, "", l.line, l.column⟩, { l with column := l.column + 1 }) := by
  have hopn : tryOperatorAux l l.line l.column defaultGlobals.operators = none := by
    refine tryOperatorAux_none ?_
    intro op hop he
    rw [h1] at he
    exact (by decide :
      ∀ op ∈ defaultGlobals.operators, nulChar ≠ strByteD op.Single 0) op hop he
  have hrc : readChar l = { l with column := l.column + 1 } := by
    cases l with
    | mk inp pos rp ch li co er =>
      have h1b : ch = nulChar := h1
      subst h1b
      simp only [readChar, if_pos h2]
      split_ifs with hx
      · exact absurd hx (by decide)
      · rfl
  have key := nextTokenF_eof_case (g := defaultGlobals) (f := mu l) h1 hopn
  show (nextTokenF defaultGlobals (mu l + 1) l).getD
      (⟨EOFTT, "", l.line, l.column⟩, l) = _
  rw [key, Option.getD_some, hrc]

/-- C4 witness: the empty input, first repeated call. -/
theorem claim_C4_witness :
    (NewLexer "").ch = nulChar ∧
    (NewLexer "").input.length ≤ (NewLexer "").readPosition ∧
    NextToken defaultGlobals (NewLexer "") =
      (⟨EOFTT, "", (NewLexer "").line, (NewLexer "").column⟩,
       { NewLexer "" with column := (NewLexer "").column + 1 }) :=
  ⟨by decide, by decide, claim_C4_amended (NewLexer "") (by decide) (by decide)⟩

/-- C7 counterexample: in `"a\nb "` the token `b` sits at code-point
index 2, the first character of line 2 (its true 1-indexed column is 1),
yet the scanner reports column 2. -/
theorem claim_C7_counterexample :
    ((TokenizeAll defaultGlobals (NewLexer "a\nb ")).1.getD 1 ⟨ILLEGAL, "", 0, 0⟩) =
      ⟨IDENT, "b", 2, 2⟩ ∧
    "a\nb ".data.getD 1 nulChar = '\n' ∧
    colIdx ("a\nb ".data) 2 + 1 = 1 := by
  refine ⟨by decide, by decide, by decide⟩

/-- C7 amended: for inputs without NUL code points, whenever the cursor
rests on a live code point - in particular at the capture state whose
line/column become a token's reported position - the reported line is
the true 1-indexed line of that code point, and the reported column is
its true 1-indexed column within the line for line 1 but the true column
plus one on every later line (the line feed is booked as column 1 of the
line it opens), so a token starting a later line reports column 2. -/
theorem claim_C7_amended (s : List Char) (hs : nulChar ∉ s) (n : Nat)
    (h : (readCharIter n (mkLexer s)).ch ≠ nulChar)
    (hnl : (readCharIter n (mkLexer s)).ch ≠ '\n') :
    (readCharIter n (mkLexer s)).line =
      lineIdx s (readCharIter n (mkLexer s)).position + 1 ∧
    (readCharIter n (mkLexer s)).column =
      (colIdx s (readCharIter n (mkLexer s)).position + 1) +
        (if lineIdx s (readCharIter n (mkLexer s)).position = 0 then 0 else 1) := by
  obtain ⟨_, hlive⟩ := cursorInv_iter s hs n
  obtain ⟨e1, e2, e3, e4, e5⟩ := hlive h
  have hpos : (readCharIter n (mkLexer s)).position < s.length := by omega
  have hgne : s.getD (readCharIter n (mkLexer s)).position nulChar ≠ '\n' := by
    rw [← e3]
    exact hnl
  have hl2 : lineIdx s (readCharIter n (mkLexer s)).readPosition =
      lineIdx s (readCharIter n (mkLexer s)).position := by
    rw [e1, lineIdx_succ s _ hpos, if_neg hgne, Nat.add_zero]
  have hc2 : colIdx s (readCharIter n (mkLexer s)).readPosition =
      colIdx s (readCharIter n (mkLexer s)).position + 1 := by
    rw [e1, colIdx_succ s _ hpos hgne]
  constructor
  · rw [e4, hl2]
  · rw [e5, hc2, hl2]

/-- C7 witness: state 3 of the scan of `"a\nb "`, resting on `b`. -/
theorem claim_C7_witness :
    nulChar ∉ "a\nb ".data ∧
    (readCharIter 3 (mkLexer "a\nb ".data)).ch ≠ nulChar ∧
    (readCharIter 3 (mkLexer "a\nb ".data)).ch ≠ '\n' ∧
    ((readCharIter 3 (mkLexer "a\nb ".data)).line =
      lineIdx "a\nb ".data (readCharIter 3 (mkLexer "a\nb ".data)).position + 1 ∧
     (readCharIter 3 (mkLexer "a\nb ".data)).column =
      (colIdx "a\nb ".data (readCharIter 3 (mkLexer "a\nb ".data)).position + 1) +
        (if lineIdx "a\nb ".data (readCharIter 3 (mkLexer "a\nb ".data)).position = 0
          then 0 else 1)) :=
  ⟨by decide, by decide, by decide,
    claim_C7_amended ("a\nb ".data) (by decide) 3 (by decide) (by decide)⟩

/-- C10: whenever `NextToken` (default tables) is invoked with the
current code point an opening single quote, the returned token has kind
CHAR - never ILLEGAL - and in the unterminated and embedded-newline
cases its text is the empty string. -/
theorem claim_C10_char_kind (l : Lexer) (h : l.ch = squoteChar) :
    (NextToken defaultGlobals l).1.type_ = CHAR ∧
    ((readChar l).ch = nulChar ∨ (readChar l).ch = '\n' →
      (NextToken defaultGlobals l).1.Literal = "") := by
  have hopn : tryOperatorAux l l.line l.column defaultGlobals.operators = none := by
    refine tryOperatorAux_none ?_
    intro op hop he
    rw [h] at he
    exact (by decide :
      ∀ op ∈ defaultGlobals.operators, squoteChar ≠ strByteD op.Single 0) op hop he
  have key := nextTokenF_squote_case (g := defaultGlobals) (f := mu l) h hopn
  have hNT : NextToken defaultGlobals l =
      (⟨CHAR, (readCharLiteral l).1, l.line, l.column⟩, (readCharLiteral l).2) := by
    show (nextTokenF defaultGlobals (mu l + 1) l).getD
        (⟨EOFTT, "", l.line, l.column⟩, l) = _
    rw [key, Option.getD_some]
  constructor
  · rw [hNT]
  · intro hcase
    rw [hNT]
    show (readCharLiteral l).1 = ""
    by_cases hnul : (readChar l).ch = nulChar
    · simp only [readCharLiteral]
      rw [if_pos hnul]
    · rcases hcase with hc1 | hc2
      · exact absurd hc1 hnul
      · simp only [readCharLiteral]
        rw [if_neg hnul, if_pos hc2]

/-- C10 witness: the one-character input consisting of a single quote
(unterminated literal). -/
theorem claim_C10_witness :
    (NewLexer (String.mk [squoteChar])).ch = squoteChar ∧
    (NextToken defaultGlobals (NewLexer (String.mk [squoteChar]))).1.type_ = CHAR ∧
    (NextToken defaultGlobals (NewLexer (String.mk [squoteChar]))).1.Literal = "" :=
  ⟨by decide,
   (claim_C10_char_kind (NewLexer (String.mk [squoteChar])) (by decide)).1,
   (claim_C10_char_kind (NewLexer (String.mk [squoteChar])) (by decide)).2
     (Or.inl (by decide))⟩

end Golexer
